import Mathlib

/-!
Verification of the payscope core pipeline against its natural-language
specification.  The Python sources are shallowly embedded: pure functions
become Lean functions, stateful code becomes explicit state passing, machine
floats and `Decimal` values are modelled as rationals, `datetime` values as
seconds since the Unix epoch, and fallible code returns `Option`/`Except`.
External network calls (Celery, the LLM mapping oracle, Neo4j, object
storage) are modelled as parameters or as event traces.
-/

namespace Payscope

/-! ## Job orchestrator: `processing/tasks.py` `parse_artifact`

The claim step and the status updates performed by one execution of
`parse_artifact` (tasks.py lines 49-187).  The database is reduced to the
`parse_jobs.status` column for the artifact being processed; the execution
is reduced to the ordered trace of observable events: committed status
updates and the run of the pipeline body. -/

/-- `parse_jobs.status` values (spec section 3, ingestion `JobStatus`). -/
inductive JobStatus
  | QUEUED
  | STARTED
  | SUCCESS
  | FAILED
deriving DecidableEq, Repr

/-- An observable event of one `parse_artifact` execution: a committed
`UPDATE parse_jobs SET status = ...` or the run of the pipeline body
(`run_pipeline` + persistence). -/
inductive TaskEvent
  | setStatus (s : JobStatus)
  | runPipelineBody
deriving DecidableEq, Repr

/-- Whether the pipeline body (parse, normalize, persistence to the three
stores) completes or raises.  A raise at any point between the claim commit
and the final success update lands in the `except` handler of `run`. -/
inductive PipelineOutcome
  | ok
  | raises
deriving DecidableEq, Repr

/-- Return value of the `run` coroutine of `parse_artifact`
(`"already_success"`, `"already_started"`, `"success"`, or re-raise). -/
inductive TaskResult
  | alreadySuccess
  | alreadyStarted
  | success
  | raises
deriving DecidableEq, Repr

/-- Embedding of `parse_artifact` (tasks.py lines 49-187) as the trace of
observable events plus the result, as a function of the claimed job's
initial status and of the pipeline body's outcome:

* status `SUCCESS`: return `"already_success"` inside the claim
  transaction, no update;
* status `STARTED`: return `"already_started"`, no update;
* otherwise (`QUEUED` or `FAILED`): `UPDATE ... SET status = 'STARTED'`,
  committed when the claim transaction block exits, then the pipeline body
  runs; on completion `SET status = 'SUCCESS'`, on a raise the `except`
  handler performs `SET status = 'FAILED'` and re-raises. -/
def parseArtifactTrace (s0 : JobStatus) (p : PipelineOutcome) :
    List TaskEvent × TaskResult :=
  match s0 with
  | .SUCCESS => ([], .alreadySuccess)
  | .STARTED => ([], .alreadyStarted)
  | _ =>
    match p with
    | .ok =>
      ([.setStatus .STARTED, .runPipelineBody, .setStatus .SUCCESS], .success)
    | .raises =>
      ([.setStatus .STARTED, .runPipelineBody, .setStatus .FAILED], .raises)

/-- The committed status values of a trace, in order. -/
def statusUpdates (evs : List TaskEvent) : List JobStatus :=
  evs.filterMap fun e =>
    match e with
    | .setStatus s => some s
    | .runPipelineBody => none

/-- The ParseJob state machine of spec section 4.2:
`QUEUED → STARTED → {SUCCESS | FAILED}`, with `FAILED` allowed to
re-enter `STARTED` on a retry. -/
def stateMachineStep (a b : JobStatus) : Prop :=
  (a = .QUEUED ∧ b = .STARTED) ∨
  (a = .FAILED ∧ b = .STARTED) ∨
  (a = .STARTED ∧ b = .SUCCESS) ∨
  (a = .STARTED ∧ b = .FAILED)

instance : DecidablePred (fun p : JobStatus × JobStatus => stateMachineStep p.1 p.2) := by
  intro p
  unfold stateMachineStep
  infer_instance

/-- C1: the job claim step of `parse_artifact`, within one transaction on
the ParseJob row, returns `"already_success"` with no state change when the
status is `SUCCESS`, returns `"already_started"` with no state change when
the status is `STARTED`, and otherwise (`QUEUED` or `FAILED`) commits the
transition to `STARTED` before the pipeline body runs. -/
theorem C1_claim_step :
    ∀ p : PipelineOutcome,
      parseArtifactTrace .SUCCESS p = ([], .alreadySuccess) ∧
      parseArtifactTrace .STARTED p = ([], .alreadyStarted) ∧
      (∀ s0, (s0 = .QUEUED ∨ s0 = .FAILED) →
        ∃ rest, (parseArtifactTrace s0 p).1 =
          .setStatus .STARTED :: .runPipelineBody :: rest) := by
  intro p
  refine ⟨?_, ?_, ?_⟩
  · cases p <;> rfl
  · cases p <;> rfl
  · rintro s0 (rfl | rfl) <;> cases p <;> exact ⟨_, rfl⟩

/-- C2: every status update performed by `parse_artifact`, from any initial
ParseJob status, follows the state machine
`QUEUED → STARTED → {SUCCESS | FAILED}` with `FAILED → STARTED` on retry;
in particular the status is never set to `QUEUED`, and never set to
`STARTED` from `SUCCESS`. -/
theorem C2_status_state_machine :
    ∀ (s0 : JobStatus) (p : PipelineOutcome),
      List.Chain stateMachineStep s0
        (statusUpdates (parseArtifactTrace s0 p).1) ∧
      (∀ s ∈ statusUpdates (parseArtifactTrace s0 p).1, s ≠ .QUEUED) := by
  intro s0 p
  cases s0 <;> cases p <;>
    simp [parseArtifactTrace, statusUpdates, stateMachineStep]

/-! ## Artifact registry: `ingestion/app.py` `upload`

The per-file body of the `/upload` handler (app.py lines 99-178), happy
path, with the relational store, object storage and the Celery queue made
explicit.  `uuid4` report/artifact identifiers are modelled by a fresh-id
counter; SHA-256 hashing and format detection are opaque deterministic
functions passed as parameters (only their determinism matters here). -/

/-- `Artifact.file_format` values. -/
inductive FileFormat
  | PDF
  | CSV
  | XLSX
deriving DecidableEq, Repr

/-- The extension map used to build `object_key = raw/{checksum}.{ext}`. -/
def formatExt : FileFormat → String
  | .PDF => "pdf"
  | .CSV => "csv"
  | .XLSX => "xlsx"

/-- One row of the `artifacts` table. -/
structure ArtifactRow where
  artifactId : Nat
  checksum : String
  fileFormat : FileFormat
  objectKey : String
deriving DecidableEq, Repr

/-- One row of the `parse_jobs` table (1:1 with artifacts). -/
structure ParseJobRow where
  artifactId : Nat
  status : JobStatus
  celeryTaskId : Option Nat
deriving DecidableEq, Repr

/-- One row of the `report_uploads` table (one per upload call). -/
structure ReportUploadRow where
  reportId : Nat
  artifactId : Nat
  filename : String
  uploader : String
  checksum : String
deriving DecidableEq, Repr

/-- Relational store + object storage + queue, as seen by `upload`.
`queue` is the ordered list of `parse_artifact` messages sent so far;
`objects` the keys present in object storage; `nextId` the fresh-id
supply standing in for `uuid4`. -/
structure IngestState where
  artifacts : List ArtifactRow
  parseJobs : List ParseJobRow
  reportUploads : List ReportUploadRow
  queue : List (Nat × String)
  objects : List String
  nextId : Nat
deriving DecidableEq, Repr

/-- The per-file entry of the response `results` list. -/
structure UploadResult where
  reportId : Nat
  filename : String
  checksum : String
  fileFormat : FileFormat
  artifactId : Nat
  objectKey : String
  parseStatus : JobStatus
deriving DecidableEq, Repr

/-- `SELECT ... FROM artifacts WHERE checksum_sha256 = :checksum`. -/
def findArtifact (st : IngestState) (checksum : String) : Option ArtifactRow :=
  st.artifacts.find? fun a => a.checksum = checksum

/-- `SELECT ... FROM parse_jobs WHERE artifact_id = :aid`. -/
def findJob (st : IngestState) (aid : Nat) : Option ParseJobRow :=
  st.parseJobs.find? fun j => j.artifactId = aid

/-- Embedding of one iteration of the per-file loop of `upload`
(app.py lines 112-195), happy path:

* hash the streamed bytes and detect the format;
* compute the canonical `object_key = raw/{checksum}.{ext}`;
* if no artifact exists for the checksum: put the object, insert
  `Artifact` + `ParseJob(QUEUED)`, commit, then enqueue
  `parse_artifact(artifact_id, bank_id)` and record the task id;
* if an artifact exists: reuse it, ensure a ParseJob exists (create a
  QUEUED one only if missing), and do not enqueue;
* in both cases insert a `ReportUpload` row with a fresh `report_id`. -/
def upload (hash : List Nat → String) (detect : List Nat → FileFormat)
    (bankId uploader filename : String) (content : List Nat)
    (st : IngestState) : IngestState × UploadResult :=
  let reportId := st.nextId
  let checksum := hash content
  let fmt := detect content
  let objectKey := "raw/" ++ checksum ++ "." ++ formatExt fmt
  match findArtifact st checksum with
  | none =>
    let artifactId := st.nextId + 1
    let artifact : ArtifactRow :=
      { artifactId := artifactId, checksum := checksum,
        fileFormat := fmt, objectKey := objectKey }
    let taskId := st.queue.length
    let job : ParseJobRow :=
      { artifactId := artifactId, status := .QUEUED,
        celeryTaskId := some taskId }
    let uploadRow : ReportUploadRow :=
      { reportId := reportId, artifactId := artifactId,
        filename := filename, uploader := uploader, checksum := checksum }
    ({ artifacts := artifact :: st.artifacts,
       parseJobs := job :: st.parseJobs,
       reportUploads := uploadRow :: st.reportUploads,
       queue := st.queue ++ [(artifactId, bankId)],
       objects := objectKey :: st.objects,
       nextId := st.nextId + 2 },
     { reportId := reportId, filename := filename, checksum := checksum,
       fileFormat := fmt, artifactId := artifactId,
       objectKey := objectKey, parseStatus := .QUEUED })
  | some artifact =>
    let jobAndRows : ParseJobRow × List ParseJobRow :=
      match findJob st artifact.artifactId with
      | some j => (j, st.parseJobs)
      | none =>
        let j : ParseJobRow :=
          { artifactId := artifact.artifactId, status := .QUEUED,
            celeryTaskId := none }
        (j, j :: st.parseJobs)
    let uploadRow : ReportUploadRow :=
      { reportId := reportId, artifactId := artifact.artifactId,
        filename := filename, uploader := uploader, checksum := checksum }
    ({ artifacts := st.artifacts,
       parseJobs := jobAndRows.2,
       reportUploads := uploadRow :: st.reportUploads,
       queue := st.queue,
       objects := st.objects,
       nextId := st.nextId + 1 },
     { reportId := reportId, filename := filename, checksum := checksum,
       fileFormat := artifact.fileFormat, artifactId := artifact.artifactId,
       objectKey := artifact.objectKey, parseStatus := jobAndRows.1.status })

/-- C3: two successful uploads of identical bytes return distinct
`report_id`s, the same `artifact_id` and `object_key`, and enqueue the
parse task exactly once across both calls (only the first, artifact-creating
call enqueues). -/
theorem C3_checksum_dedup (hash : List Nat → String)
    (detect : List Nat → FileFormat)
    (bank1 bank2 up1 up2 fn1 fn2 : String) (content : List Nat)
    (st : IngestState)
    (hnew : findArtifact st (hash content) = none) :
    let r1 := upload hash detect bank1 up1 fn1 content st
    let r2 := upload hash detect bank2 up2 fn2 content r1.1
    r1.2.reportId ≠ r2.2.reportId ∧
    r2.2.artifactId = r1.2.artifactId ∧
    r2.2.objectKey = r1.2.objectKey ∧
    r2.1.queue = st.queue ++ [(r1.2.artifactId, bank1)] := by
  intro r1 r2
  have h1 : r1 = upload hash detect bank1 up1 fn1 content st := rfl
  rw [upload, hnew] at h1
  dsimp only at h1
  have hfind2 : findArtifact r1.1 (hash content) =
      some { artifactId := st.nextId + 1, checksum := hash content,
             fileFormat := detect content,
             objectKey := "raw/" ++ hash content ++ "." ++
               formatExt (detect content) } := by
    rw [h1]
    simp [findArtifact, List.find?]
  have h2 : r2 = upload hash detect bank2 up2 fn2 content r1.1 := rfl
  rw [upload, hfind2] at h2
  dsimp only at h2
  rw [h1] at h2
  simp only [findJob, List.find?] at h2
  rw [h2, h1]
  dsimp only
  refine ⟨?_, ?_, ?_, ?_⟩
  · simp
  · simp
  · simp
  · simp

/-- Witness for C3 at a concrete hash, detector, content and empty store. -/
theorem C3_checksum_dedup_witness :
    let hash := fun bytes : List Nat => String.intercalate "-" (bytes.map toString)
    let detect := fun _ : List Nat => FileFormat.CSV
    let st : IngestState :=
      { artifacts := [], parseJobs := [], reportUploads := [],
        queue := [], objects := [], nextId := 0 }
    let r1 := upload hash detect "bank-a" "alice" "report.csv" [1, 2, 3] st
    let r2 := upload hash detect "bank-a" "alice" "copy.csv" [1, 2, 3] r1.1
    r1.2.reportId ≠ r2.2.reportId ∧
    r2.2.artifactId = r1.2.artifactId ∧
    r2.2.objectKey = r1.2.objectKey ∧
    r2.1.queue = st.queue ++ [(r1.2.artifactId, "bank-a")] :=
  C3_checksum_dedup _ _ "bank-a" "bank-a" "alice" "alice" "report.csv"
    "copy.csv" [1, 2, 3] _ (by decide)

/-! ## Python `dict` helpers

Association lists with Python-dict semantics: insertion keeps first
positions on overwrite, new keys are appended; iteration order is
insertion order. -/

/-- `d[k] = v` on a Python dict. -/
def dictInsert {K V : Type} [DecidableEq K] : List (K × V) → K → V → List (K × V)
  | [], k, v => [(k, v)]
  | (k1, v1) :: rest, k, v =>
    if k1 = k then (k1, v) :: rest else (k1, v1) :: dictInsert rest k v

/-- `d.get(k)` on a Python dict. -/
def dictGet {K V : Type} [DecidableEq K] : List (K × V) → K → Option V
  | [], _ => none
  | (k1, v1) :: rest, k => if k1 = k then some v1 else dictGet rest k

theorem dictGet_dictInsert_self {K V : Type} [DecidableEq K]
    (d : List (K × V)) (k : K) (v : V) :
    dictGet (dictInsert d k v) k = some v := by
  induction d with
  | nil => simp [dictInsert, dictGet]
  | cons p rest ih =>
    obtain ⟨k1, v1⟩ := p
    by_cases h : k1 = k <;> simp [dictInsert, dictGet, h, ih]

theorem dictGet_dictInsert_ne {K V : Type} [DecidableEq K]
    (d : List (K × V)) (k k' : K) (v : V) (h : k ≠ k') :
    dictGet (dictInsert d k v) k' = dictGet d k' := by
  induction d with
  | nil => simp [dictInsert, dictGet, h]
  | cons p rest ih =>
    obtain ⟨k1, v1⟩ := p
    by_cases h1 : k1 = k
    · subst h1
      simp [dictInsert, dictGet, h]
    · simp only [dictInsert, if_neg h1]
      by_cases h2 : k1 = k' <;> simp [dictGet, h2, ih]

/-! ## Lifecycle reconciler: `processing/graph/reasoning.py`

`analyze_lifecycle` is a pure function over a transaction's stage records.
Python float amounts are modelled as rationals and UTC datetimes as seconds
since the epoch (so `timedelta.total_seconds()` becomes integer
subtraction). -/

/-- `reasoning.LifecycleStageInfo`. -/
structure LifecycleStageInfo where
  stage : String
  amount : ℚ
  currency : String
  timestampUtc : ℤ
deriving DecidableEq, Repr

/-- `reasoning.LifecycleAnomalies`. -/
structure LifecycleAnomalies where
  hasAmountMismatch : Bool
  missingSettlement : Bool
  currencyConflict : Bool
  lifecycleGapDuration : Option ℤ
  timestampViolation : Bool
deriving DecidableEq, Repr

/-- `by_stage = {s.stage: s for s in stages}` — a dict comprehension, so
the last record for each stage wins. -/
def byStage (stages : List LifecycleStageInfo) :
    List (String × LifecycleStageInfo) :=
  stages.foldl (fun d s => dictInsert d s.stage s) []

/-- The body of the double loop over amount pairs: zero-valued legs are
skipped, otherwise the relative difference is compared against 1%. -/
def amountMismatchPair (a b : ℚ) : Bool :=
  if a = 0 ∨ b = 0 then false
  else decide (|a - b| / max |a| |b| > (1 : ℚ) / 100)

/-- The double loop `for i ... for j in range(i+1, ...)` over amounts. -/
def anyPairMismatch : List ℚ → Bool
  | [] => false
  | a :: rest => rest.any (fun b => amountMismatchPair a b) || anyPairMismatch rest

/-- `any(ts_list[i] > ts_list[i+1] ...)` over consecutive entries. -/
def anyDescent : List ℤ → Bool
  | a :: b :: rest => decide (a > b) || anyDescent (b :: rest)
  | _ => false

/-- Embedding of `analyze_lifecycle` (reasoning.py lines 27-72). -/
def analyze_lifecycle (stages : List LifecycleStageInfo) : LifecycleAnomalies :=
  let bs := byStage stages
  let missingSettlement := (dictGet bs "SETTLEMENT").isNone
  let currencyConflict := decide ((stages.map (·.currency)).dedup.length > 1)
  let hasAmountMismatch := anyPairMismatch (stages.map (·.amount))
  let tsList :=
    (["AUTH", "CLEARING", "SETTLEMENT"].filterMap (dictGet bs)).map
      (·.timestampUtc)
  let timestampViolation := anyDescent tsList
  let gap :=
    match dictGet bs "AUTH", dictGet bs "SETTLEMENT" with
    | some sa, some ss => some (ss.timestampUtc - sa.timestampUtc)
    | _, _ => none
  { hasAmountMismatch := hasAmountMismatch,
    missingSettlement := missingSettlement,
    currencyConflict := currencyConflict,
    lifecycleGapDuration := gap,
    timestampViolation := timestampViolation }

theorem anyPairMismatch_iff (l : List ℚ) :
    anyPairMismatch l = true ↔
      ∃ x y : ℚ, [x, y].Sublist l ∧ amountMismatchPair x y = true := by
  induction l with
  | nil =>
    simp only [anyPairMismatch]
    constructor
    · intro h
      cases h
    · rintro ⟨x, y, hs, _⟩
      cases hs
  | cons a rest ih =>
    simp only [anyPairMismatch, Bool.or_eq_true, List.any_eq_true, ih]
    constructor
    · rintro (⟨y, hy, hm⟩ | ⟨x, y, hs, hm⟩)
      · exact ⟨a, y, (List.singleton_sublist.mpr hy).cons₂ a, hm⟩
      · exact ⟨x, y, hs.cons a, hm⟩
    · rintro ⟨x, y, hs, hm⟩
      cases hs with
      | cons _ h => exact Or.inr ⟨x, y, h, hm⟩
      | cons₂ _ h => exact Or.inl ⟨y, List.singleton_sublist.mp h, hm⟩

theorem amountMismatchPair_iff (x y : ℚ) :
    amountMismatchPair x y = true ↔
      x ≠ 0 ∧ y ≠ 0 ∧ |x - y| / max |x| |y| > (1 : ℚ) / 100 := by
  unfold amountMismatchPair
  by_cases h : x = 0 ∨ y = 0
  · simp only [if_pos h]
    constructor
    · intro hfalse
      cases hfalse
    · rintro ⟨hx, hy, _⟩
      rcases h with h | h
      · exact absurd h hx
      · exact absurd h hy
  · push_neg at h
    simp [h.1, h.2]

/-- C7: `analyze_lifecycle` reports an amount mismatch exactly when two
stage records have non-zero amounts with relative difference above 1%;
the lifecycle gap is the seconds between the AUTH and SETTLEMENT records
when both are present and absent otherwise; and on
AUTH(100 USD, t0) / SETTLEMENT(102 USD, t0+86400) it reports
mismatch=true, missing_settlement=false, gap=86400. -/
theorem C7_analyze_lifecycle :
    (∀ stages : List LifecycleStageInfo,
      ((analyze_lifecycle stages).hasAmountMismatch = true ↔
        ∃ a b : LifecycleStageInfo, [a, b].Sublist stages ∧
          a.amount ≠ 0 ∧ b.amount ≠ 0 ∧
          |a.amount - b.amount| / max |a.amount| |b.amount| >
            (1 : ℚ) / 100) ∧
      (∀ d : ℤ,
        (analyze_lifecycle stages).lifecycleGapDuration = some d ↔
          ∃ sa ss, dictGet (byStage stages) "AUTH" = some sa ∧
            dictGet (byStage stages) "SETTLEMENT" = some ss ∧
            d = ss.timestampUtc - sa.timestampUtc)) ∧
    analyze_lifecycle
      [{ stage := "AUTH", amount := 100, currency := "USD",
         timestampUtc := 0 },
       { stage := "SETTLEMENT", amount := 102, currency := "USD",
         timestampUtc := 86400 }] =
      { hasAmountMismatch := true, missingSettlement := false,
        currencyConflict := false, lifecycleGapDuration := some 86400,
        timestampViolation := false } := by
  refine ⟨fun stages => ⟨?_, ?_⟩, ?_⟩
  rotate_right
  · have hmm : amountMismatchPair 100 102 = true :=
      (amountMismatchPair_iff 100 102).mpr
        ⟨by norm_num, by norm_num, by norm_num⟩
    have h1 : anyPairMismatch [(100 : ℚ), 102] = true := by
      simp [anyPairMismatch, hmm]
    simp only [analyze_lifecycle, byStage, List.foldl, List.map]
    rw [show ((100 : ℚ) :: [102]) = [(100 : ℚ), 102] from rfl] at h1
    simp [h1, dictInsert, dictGet, anyDescent, List.dedup, List.filterMap]
  · show anyPairMismatch (stages.map (·.amount)) = true ↔ _
    rw [anyPairMismatch_iff]
    constructor
    · rintro ⟨x, y, hs, hm⟩
      rcases List.sublist_map_iff.mp hs with ⟨l', hl', hmap⟩
      match l', hmap with
      | [a, b], hmap =>
        simp only [List.map_cons, List.map_nil, List.cons.injEq,
          and_true] at hmap
        obtain ⟨hx, hy⟩ := hmap
        rcases (amountMismatchPair_iff x y).mp hm with ⟨h0x, h0y, hrel⟩
        exact ⟨a, b, hl', by rw [← hx]; exact h0x, by rw [← hy]; exact h0y,
          by rw [← hx, ← hy]; exact hrel⟩
    · rintro ⟨a, b, hs, h0a, h0b, hrel⟩
      refine ⟨a.amount, b.amount, ?_, ?_⟩
      · have := hs.map (·.amount)
        simpa using this
      · exact (amountMismatchPair_iff _ _).mpr ⟨h0a, h0b, hrel⟩
  · intro d
    show (match dictGet (byStage stages) "AUTH",
        dictGet (byStage stages) "SETTLEMENT" with
      | some sa, some ss => some (ss.timestampUtc - sa.timestampUtc)
      | _, _ => none) = some d ↔ _
    cases hA : dictGet (byStage stages) "AUTH" <;>
      cases hS : dictGet (byStage stages) "SETTLEMENT" <;>
        simp [hA, hS, eq_comm]

/-! ## Graph writer: `processing/graph/neo4j_writer.py` `_write_lifecycle`

The stage-edge part of `GraphWriter._write_lifecycle` (lines 92-119).  The
Neo4j transaction is modelled as the list of MERGE'd stage edges it emits,
or the raised `ValueError`.  ISO-8601 `event_time` strings are represented
by the instants they denote (seconds since the epoch), so Python's
`parse_time` becomes the identity and `sorted(stages, key=parse_time)`
becomes a stable sort on `eventTime`. -/

/-- One entry of the `stages` argument of `_write_lifecycle`. -/
structure StageEdgeInput where
  relType : String
  stage : String
  eventTime : ℤ
deriving DecidableEq, Repr

/-- One MERGE'd stage edge, keyed by
`edge_id = f"{transaction_pk}|{rel_type}|{stage}"`. -/
structure GraphEdge where
  edgeId : String
  relType : String
  stage : String
  eventTime : ℤ
deriving DecidableEq, Repr

/-- The edge written for one stage entry. -/
def mkEdge (transactionPk : String) (s : StageEdgeInput) : GraphEdge :=
  { edgeId := transactionPk ++ "|" ++ s.relType ++ "|" ++ s.stage,
    relType := s.relType, stage := s.stage, eventTime := s.eventTime }

/-- The `for s in ordered` loop of `_write_lifecycle`: raise
`ValueError("temporal_ordering_violation")` when an edge's `event_time` is
earlier than `last_time`, else write the edge and advance `last_time`. -/
def writeLifecycleLoop (transactionPk : String) :
    Option ℤ → List StageEdgeInput → Except String (List GraphEdge)
  | _, [] => Except.ok []
  | lastTime, s :: rest =>
    if _h : ∃ lt, lastTime = some lt ∧ s.eventTime < lt then
      Except.error "temporal_ordering_violation"
    else
      (writeLifecycleLoop transactionPk (some s.eventTime) rest).map
        (fun es => mkEdge transactionPk s :: es)

/-- Embedding of the stage-edge part of `_write_lifecycle`:
`ordered = sorted(stages, key=lambda x: parse_time(x["event_time"]))`
followed by the write loop. -/
def write_lifecycle (transactionPk : String) (stages : List StageEdgeInput) :
    Except String (List GraphEdge) :=
  let ordered := stages.mergeSort fun a b => decide (a.eventTime ≤ b.eventTime)
  writeLifecycleLoop transactionPk none ordered

theorem writeLifecycleLoop_ok (transactionPk : String) :
    ∀ (l : List StageEdgeInput) (acc : Option ℤ),
      l.Pairwise (fun a b => a.eventTime ≤ b.eventTime) →
      (∀ t, acc = some t → ∀ s ∈ l, t ≤ s.eventTime) →
      writeLifecycleLoop transactionPk acc l =
        Except.ok (l.map (mkEdge transactionPk)) := by
  intro l
  induction l with
  | nil => intro acc _ _; rfl
  | cons s rest ih =>
    intro acc hpair hacc
    have hnot : ¬ ∃ lt, acc = some lt ∧ s.eventTime < lt := by
      rintro ⟨lt, hlt, hless⟩
      exact absurd hless (not_lt.mpr (hacc lt hlt s (List.mem_cons_self s rest)))
    rw [writeLifecycleLoop, dif_neg hnot]
    rw [ih (some s.eventTime) (List.Pairwise.of_cons hpair)
      (by
        rintro t ht u hu
        cases ht
        exact (List.pairwise_cons.mp hpair).1 u hu)]
    rfl

/-- C6 as written is false: `_write_lifecycle` sorts the stage entries by
`event_time` before inserting, so an input whose second entry carries an
earlier `event_time` than the first is silently reordered instead of
raising.  On the concrete out-of-order input below the writer returns the
edges in sorted order and no `temporal_ordering_violation` is raised. -/
theorem C6_counterexample :
    write_lifecycle "tx-1"
      [{ relType := "SETTLED", stage := "SETTLEMENT", eventTime := 100 },
       { relType := "AUTHORIZED", stage := "AUTH", eventTime := 50 }] =
      Except.ok
        [{ edgeId := "tx-1|AUTHORIZED|AUTH", relType := "AUTHORIZED",
           stage := "AUTH", eventTime := 50 },
         { edgeId := "tx-1|SETTLED|SETTLEMENT", relType := "SETTLED",
           stage := "SETTLEMENT", eventTime := 100 }] := by
  have hsort :
      ([{ relType := "SETTLED", stage := "SETTLEMENT", eventTime := 100 },
        { relType := "AUTHORIZED", stage := "AUTH",
          eventTime := 50 }] : List StageEdgeInput).mergeSort
        (fun a b => decide (a.eventTime ≤ b.eventTime)) =
      [{ relType := "AUTHORIZED", stage := "AUTH", eventTime := 50 },
       { relType := "SETTLED", stage := "SETTLEMENT", eventTime := 100 }] := by
    simp [List.mergeSort, List.merge]
  rw [write_lifecycle]
  rw [hsort]
  rw [writeLifecycleLoop_ok "tx-1" _ none (by decide)
    (by rintro t ht; cases ht)]
  rfl

/-- C6 amended: `_write_lifecycle` never raises on stage-edge input; it
stably sorts the entries by `event_time` and inserts the edges in
non-decreasing `event_time` order — an out-of-order input is silently
reordered, not rejected (the in-loop temporal check is unreachable because
the list was just sorted). -/
theorem C6_amended_sorted_insert :
    ∀ (transactionPk : String) (stages : List StageEdgeInput),
      write_lifecycle transactionPk stages =
        Except.ok
          ((stages.mergeSort fun a b =>
            decide (a.eventTime ≤ b.eventTime)).map (mkEdge transactionPk)) ∧
      ((stages.mergeSort fun a b =>
          decide (a.eventTime ≤ b.eventTime)).map
        (mkEdge transactionPk)).Pairwise
          (fun e1 e2 => e1.eventTime ≤ e2.eventTime) ∧
      ((stages.mergeSort fun a b =>
          decide (a.eventTime ≤ b.eventTime)).map (mkEdge transactionPk)).Perm
        (stages.map (mkEdge transactionPk)) := by
  intro transactionPk stages
  have hsorted : (stages.mergeSort fun a b =>
      decide (a.eventTime ≤ b.eventTime)).Pairwise
        (fun a b => a.eventTime ≤ b.eventTime) := by
    have := @List.sorted_mergeSort StageEdgeInput
      (fun a b => decide (a.eventTime ≤ b.eventTime))
      (fun a b c hab hbc => by
        simp only [decide_eq_true_eq] at hab hbc ⊢
        omega)
      (fun a b => by
        simp only [Bool.or_eq_true, decide_eq_true_eq]
        omega)
      stages
    exact this.imp (by simp)
  refine ⟨?_, ?_, ?_⟩
  · rw [write_lifecycle]
    exact writeLifecycleLoop_ok transactionPk _ none hsorted
      (by rintro t ht; cases ht)
  · exact hsorted.map _ (fun a b h => h)
  · exact (List.mergeSort_perm stages _).map (mkEdge transactionPk)

/-! ## Validation primitives: `processing/normalize/validate.py`

Python strings are manipulated through their character lists; `str.strip`
becomes `trimChars`, `str.replace(c, "")` becomes a filter.  `Decimal` is
modelled by `DecValue` (a finite rational, NaN or an infinity) with a
parser over the `Decimal` literal grammar: optional sign, digits with at
most one point, optional exponent, and the `Infinity`/`NaN` forms, case
insensitive.  Finite values are built with `Rat.divInt` over integer
arithmetic only. -/

/-- `normalize.schema.ValidationErrorItem`.  The `row_ref` lineage dict
(heterogeneous JSON) is not modelled; no claim depends on it. -/
structure ValidationErrorItem where
  code : String
  message : String
  field : Option String := none
  rawValue : Option String := none
deriving DecidableEq, Repr

/-- `str.strip()` (ASCII whitespace). -/
def trimChars (cs : List Char) : List Char :=
  ((cs.dropWhile Char.isWhitespace).reverse.dropWhile Char.isWhitespace).reverse

/-- Split a character list on a separator (like `str.split(sep)`). -/
def splitOnChar (sep : Char) : List Char → List (List Char)
  | [] => [[]]
  | c :: rest =>
    let r := splitOnChar sep rest
    if c = sep then [] :: r
    else
      match r with
      | [] => [[c]]
      | g :: gs => (c :: g) :: gs

/-- Result of `Decimal(s)`: a finite value, a NaN, or an infinity. -/
inductive DecValue
  | num (q : ℚ)
  | nan
  | infinite
deriving DecidableEq, Repr

/-- Decimal digits folded to a natural number. -/
def decDigitsVal (cs : List Char) : Nat :=
  cs.foldl (fun n c => 10 * n + (c.toNat - 48)) 0

/-- A `Decimal` mantissa: digits with at most one point, at least one
digit overall.  Returns the digit value and the number of fractional
digits. -/
def decMantissa (cs : List Char) : Option (Nat × Nat) :=
  match splitOnChar '.' cs with
  | [i] =>
    if i ≠ [] ∧ i.all Char.isDigit then some (decDigitsVal i, 0) else none
  | [i, f] =>
    if (i ≠ [] ∨ f ≠ []) ∧ i.all Char.isDigit ∧ f.all Char.isDigit then
      some (decDigitsVal (i ++ f), f.length)
    else none
  | _ => none

/-- A `Decimal` exponent: optional sign, at least one digit. -/
def decExponent (cs : List Char) : Option ℤ :=
  match cs with
  | '+' :: ds =>
    if ds ≠ [] ∧ ds.all Char.isDigit then some (decDigitsVal ds : ℤ) else none
  | '-' :: ds =>
    if ds ≠ [] ∧ ds.all Char.isDigit then some (-(decDigitsVal ds : ℤ)) else none
  | ds =>
    if ds ≠ [] ∧ ds.all Char.isDigit then some (decDigitsVal ds : ℤ) else none

/-- The rational denoted by sign, digit value, fractional scale and
exponent: `±digits ⬝ 10^(e-scale)`, built with integer arithmetic and one
`Rat.divInt`. -/
def decFiniteVal (neg : Bool) (digits scale : Nat) (e : ℤ) : ℚ :=
  let sgn : ℤ := if neg then -1 else 1
  let net : ℤ := e - scale
  if 0 ≤ net then Rat.divInt (sgn * digits * 10 ^ net.toNat) 1
  else Rat.divInt (sgn * digits) (10 ^ (-net).toNat)

/-- `Decimal(s)` over characters: strip, optional sign, then the
`Infinity`/`NaN` forms or a numeric literal with optional exponent. -/
def pyDecimalParseChars (cs0 : List Char) : Option DecValue :=
  let cs := (trimChars cs0).map Char.toLower
  let signAndRest : Bool × List Char :=
    match cs with
    | c :: rest =>
      if c = '-' then (true, rest)
      else if c = '+' then (false, rest)
      else (false, cs)
    | [] => (false, [])
  let neg := signAndRest.1
  let r := signAndRest.2
  if r = ['i', 'n', 'f'] ∨ r = ['i', 'n', 'f', 'i', 'n', 'i', 't', 'y'] then
    some .infinite
  else if r.take 3 = ['n', 'a', 'n'] ∧ (r.drop 3).all Char.isDigit then
    some .nan
  else if r.take 4 = ['s', 'n', 'a', 'n'] ∧ (r.drop 4).all Char.isDigit then
    some .nan
  else
    match splitOnChar 'e' r with
    | [m] => (decMantissa m).map fun p => .num (decFiniteVal neg p.1 p.2 0)
    | [m, ex] =>
      match decMantissa m, decExponent ex with
      | some p, some e => some (.num (decFiniteVal neg p.1 p.2 e))
      | _, _ => none
    | _ => none

/-- `Decimal(s)` on a Lean string. -/
def pyDecimalParse (s : String) : Option DecValue :=
  pyDecimalParseChars s.data

/-- The cleaning pipeline of `parse_amount`:
`s.replace(",", "").replace("$", "").strip()` then the accounting
parentheses rewrite `(x)` → `-x`. -/
def cleanAmountChars (s : List Char) : List Char :=
  let s2 := trimChars ((s.filter (· ≠ ',')).filter (· ≠ '$'))
  if s2.head? = some '(' ∧ s2.getLast? = some ')' then
    '-' :: trimChars (s2.drop 1).dropLast
  else s2

/-- Embedding of `parse_amount` (validate.py lines 14-37).  The input cell
is `Option String` (`None` for a missing/JSON-null value; other values
arrive through `str(value)`). -/
def parse_amount (value : Option String) (field : String) :
    Option ℚ × List ValidationErrorItem :=
  match value with
  | none =>
    (none, [{ code := "amount_missing", message := "Amount is missing",
              field := some field }])
  | some v =>
    let s := trimChars v.data
    if s = [] then
      (none, [{ code := "amount_missing", message := "Amount is missing",
                field := some field }])
    else
      match pyDecimalParseChars (cleanAmountChars s) with
      | none =>
        (none, [{ code := "amount_invalid", message := "Amount is not numeric",
                  field := some field, rawValue := some (String.mk s) }])
      | some .nan =>
        (none, [{ code := "amount_invalid",
                  message := "Amount is NaN/Infinite",
                  field := some field, rawValue := some (String.mk s) }])
      | some .infinite =>
        (none, [{ code := "amount_invalid",
                  message := "Amount is NaN/Infinite",
                  field := some field, rawValue := some (String.mk s) }])
      | some (.num q) => (some q, [])

/-- Modelled from the spec: the fixed ISO-4217 table
`normalize/iso4217.py` (`CODES`) is not among the provided sources.
Spec sections 4.3 and 8 fix only that it is a constant code table with
`"USD"` a member (so `"usd"` is accepted after uppercasing) and `"ZZZ"`
not a member. -/
def ISO4217_CODES : List String :=
  ["USD", "EUR", "GBP", "JPY", "CHF", "CAD", "AUD", "CNY", "INR", "SGD"]

/-- `str.upper()`. -/
def pyUpper (cs : List Char) : List Char := cs.map Char.toUpper

/-- Embedding of `validate_currency` (validate.py lines 40-53). -/
def validate_currency (value : Option String) (field : String) :
    Option String × List ValidationErrorItem :=
  match value with
  | none =>
    (none, [{ code := "currency_missing", message := "Currency is missing",
              field := some field }])
  | some v =>
    let cur := String.mk (pyUpper (trimChars v.data))
    if cur.data = [] then
      (none, [{ code := "currency_missing", message := "Currency is missing",
                field := some field }])
    else if cur ∈ ISO4217_CODES then (some cur, [])
    else
      (none, [{ code := "currency_invalid",
                message := "Currency is not valid ISO-4217",
                field := some field, rawValue := some cur }])

/-- Embedding of `clamp01` (validate.py lines 76-81).  The `None` and
float-NaN guards have no counterpart on ℚ. -/
def clamp01 (x : ℚ) : ℚ :=
  if x < 0 then 0 else if x > 1 then 1 else x

/-! ### Timestamps: `parse_timestamp_to_utc`

A parsed Python `datetime` is its wall-clock reading in seconds counted
as if UTC (`naive`) plus the UTC offset carried by `tzinfo`, if any.
`dateutil.parser.parse` (an external library) is modelled for ISO-8601
inputs `YYYY-MM-DD[T ]HH:MM:SS` with optional `Z`/`±HH:MM` offset. -/

/-- A parsed Python `datetime`. -/
structure PyDateTime where
  naive : ℤ
  tzOffset : Option ℤ
deriving DecidableEq, Repr

/-- Gregorian leap year. -/
def isLeapYear (y : Nat) : Bool :=
  y % 4 == 0 && (y % 100 != 0 || y % 400 == 0)

/-- Length of a month. -/
def daysInMonth (y m : Nat) : Nat :=
  if m = 2 then (if isLeapYear y then 29 else 28)
  else if m = 4 ∨ m = 6 ∨ m = 9 ∨ m = 11 then 30
  else 31

/-- Days in the non-leap months strictly before month `m`. -/
def cumDaysBeforeMonth (m : Nat) : Nat :=
  [0, 31, 59, 90, 120, 151, 181, 212, 243, 273, 304, 334].getD (m - 1) 0

/-- Days from 1970-01-01 to year `y` month `m` day `d` (proleptic
Gregorian, `y ≥ 1`). -/
def epochDay (y m d : Nat) : ℤ :=
  let y1 := y - 1
  let leaps := y1 / 4 - y1 / 100 + y1 / 400
  let doy := cumDaysBeforeMonth m +
    (if 2 < m ∧ isLeapYear y then 1 else 0) + (d - 1)
  ((y1 * 365 + leaps + doy : Nat) : ℤ) - 719162

/-- The trailing timezone designator: empty (no tzinfo), `Z`, or
`±HH:MM`, as an offset in seconds. -/
def parseOffset (cs : List Char) : Option (Option ℤ) :=
  match cs with
  | [] => some none
  | ['Z'] => some (some 0)
  | ['z'] => some (some 0)
  | [sgn, h1, h2, ':', m1, m2] =>
    if (sgn = '+' ∨ sgn = '-') ∧ h1.isDigit ∧ h2.isDigit ∧
        m1.isDigit ∧ m2.isDigit then
      let hh := (h1.toNat - 48) * 10 + (h2.toNat - 48)
      let mm := (m1.toNat - 48) * 10 + (m2.toNat - 48)
      if hh ≤ 23 ∧ mm ≤ 59 then
        some (some ((if sgn = '-' then -1 else 1) *
          ((hh * 3600 + mm * 60 : Nat) : ℤ)))
      else none
    else none
  | _ => none

/-- Model of `dateutil.parser.parse` on ISO-8601 strings. -/
def dtparserParse (s : String) : Option PyDateTime :=
  match s.data with
  | y1 :: y2 :: y3 :: y4 :: '-' :: mo1 :: mo2 :: '-' :: d1 :: d2 ::
      sep :: h1 :: h2 :: ':' :: mi1 :: mi2 :: ':' :: s1 :: s2 :: rest =>
    if ([y1, y2, y3, y4, mo1, mo2, d1, d2, h1, h2, mi1, mi2,
          s1, s2].all Char.isDigit) ∧ (sep = 'T' ∨ sep = ' ') then
      let y := decDigitsVal [y1, y2, y3, y4]
      let mo := decDigitsVal [mo1, mo2]
      let d := decDigitsVal [d1, d2]
      let hh := decDigitsVal [h1, h2]
      let mi := decDigitsVal [mi1, mi2]
      let ss := decDigitsVal [s1, s2]
      if 1 ≤ y ∧ 1 ≤ mo ∧ mo ≤ 12 ∧ 1 ≤ d ∧ d ≤ daysInMonth y mo ∧
          hh ≤ 23 ∧ mi ≤ 59 ∧ ss ≤ 59 then
        (parseOffset rest).map fun off =>
          { naive := epochDay y mo d * 86400 +
              ((hh * 3600 + mi * 60 + ss : Nat) : ℤ),
            tzOffset := off }
      else none
    else none
  | _ => none

/-- Embedding of `parse_timestamp_to_utc` (validate.py lines 55-73): a
parsed datetime with no tzinfo is reinterpreted as UTC without shifting
(`dt.replace(tzinfo=timezone.utc)`); one carrying an offset is converted
(`dt.astimezone(timezone.utc)` reads the instant `naive - offset`).  The
returned UTC datetime is represented by its epoch second. -/
def parse_timestamp_to_utc (value : Option String) (field : String) :
    Option ℤ × List ValidationErrorItem :=
  match value with
  | none =>
    (none, [{ code := "timestamp_missing", message := "Timestamp is missing",
              field := some field }])
  | some v =>
    let s := String.mk (trimChars v.data)
    if s.data = [] then
      (none, [{ code := "timestamp_missing",
                message := "Timestamp is missing", field := some field }])
    else
      match dtparserParse s with
      | none =>
        (none, [{ code := "timestamp_invalid",
                  message := "Timestamp cannot be parsed",
                  field := some field, rawValue := some s }])
      | some dt =>
        (some (match dt.tzOffset with
          | none => dt.naive
          | some off => dt.naive - off), [])

/-- C8: `parse_amount` strips `$` and `,`, converts accounting
parentheses to a negation, and yields a value exactly when the cleaned
string is a finite `Decimal` literal, rejecting with one
`amount_invalid` error anything non-numeric, NaN or infinite; in
particular `"$1,234.56"` parses to `1234.56`, `"(45.00)"` to `-45`,
`"-10"` to `-10`, and `"abc"` and `"NaN"` are rejected. -/
theorem C8_parse_amount :
    (∀ (s : String) (q : ℚ),
      (parse_amount (some s) "amount").1 = some q ↔
        trimChars s.data ≠ [] ∧
        pyDecimalParseChars (cleanAmountChars (trimChars s.data)) =
          some (DecValue.num q)) ∧
    (∀ s : String,
      trimChars s.data ≠ [] →
      (pyDecimalParseChars (cleanAmountChars (trimChars s.data)) = none ∨
       pyDecimalParseChars (cleanAmountChars (trimChars s.data)) =
         some DecValue.nan ∨
       pyDecimalParseChars (cleanAmountChars (trimChars s.data)) =
         some DecValue.infinite) →
      (parse_amount (some s) "amount").1 = none ∧
      (parse_amount (some s) "amount").2.map (·.code) = ["amount_invalid"]) ∧
    parse_amount (some "$1,234.56") "amount" = (some (1234.56 : ℚ), []) ∧
    parse_amount (some "(45.00)") "amount" = (some (-45 : ℚ), []) ∧
    parse_amount (some "-10") "amount" = (some (-10 : ℚ), []) ∧
    (parse_amount (some "abc") "amount").1 = none ∧
    (parse_amount (some "abc") "amount").2.map (·.code) = ["amount_invalid"] ∧
    (parse_amount (some "NaN") "amount").1 = none ∧
    (parse_amount (some "NaN") "amount").2.map (·.code) = ["amount_invalid"] := by
  refine ⟨?_, ?_, ?_, by decide, by decide, by decide, by decide, by decide,
    by decide⟩
  · intro s q
    simp only [parse_amount]
    by_cases h1 : trimChars s.data = []
    · simp [h1]
    · rw [if_neg h1]
      cases h2 : pyDecimalParseChars (cleanAmountChars (trimChars s.data)) with
      | none => simp [h1, h2]
      | some dv => cases dv <;> simp [h1, h2]
  · intro s h1 h2
    simp only [parse_amount]
    rw [if_neg h1]
    rcases h2 with h2 | h2 | h2 <;> rw [h2] <;> simp
  · have h : parse_amount (some "$1,234.56") "amount" =
        (some (Rat.divInt 123456 100), []) := by decide
    have hq : Rat.divInt 123456 100 = (1234.56 : ℚ) := by
      rw [Rat.divInt_eq_div]
      norm_num
    rw [h, hq]

/-- Witness for C8: the general rejection clause applied to `"NaN"`. -/
theorem C8_parse_amount_witness :
    (parse_amount (some "NaN") "amount").1 = none ∧
    (parse_amount (some "NaN") "amount").2.map (·.code) = ["amount_invalid"] :=
  C8_parse_amount.2.1 "NaN" (by decide) (Or.inr (Or.inl (by decide)))

/-- C9: `parse_timestamp_to_utc` returns a UTC instant; a parsed
timestamp carrying no timezone is taken as already UTC (not shifted),
one carrying an offset is converted by subtracting the offset; in
particular `"2025-01-01T00:00:00"` maps to `2025-01-01T00:00:00Z`
(epoch 1735689600) and `"2025-01-01T00:00:00+02:00"` maps to
`2024-12-31T22:00:00Z` (epoch 1735682400). -/
theorem C9_parse_timestamp_to_utc :
    (∀ (s : String) (dt : PyDateTime),
      dtparserParse (String.mk (trimChars s.data)) = some dt →
      (dt.tzOffset = none →
        (parse_timestamp_to_utc (some s) "timestamp_utc").1 =
          some dt.naive) ∧
      (∀ off, dt.tzOffset = some off →
        (parse_timestamp_to_utc (some s) "timestamp_utc").1 =
          some (dt.naive - off))) ∧
    parse_timestamp_to_utc (some "2025-01-01T00:00:00") "timestamp_utc" =
      (some 1735689600, []) ∧
    parse_timestamp_to_utc (some "2025-01-01T00:00:00+02:00")
      "timestamp_utc" = (some 1735682400, []) := by
  refine ⟨?_, by decide, by decide⟩
  intro s dt hparse
  have hne : trimChars s.data ≠ [] := by
    intro h0
    rw [h0] at hparse
    exact Option.noConfusion hparse
  constructor
  · intro hoff
    simp only [parse_timestamp_to_utc]
    rw [if_neg (by simpa using hne), hparse]
    simp [hoff]
  · intro off hoff
    simp only [parse_timestamp_to_utc]
    rw [if_neg (by simpa using hne), hparse]
    simp [hoff]

/-- Witness for C9: the offset clause applied to
`"2025-01-01T00:00:00+02:00"`. -/
theorem C9_parse_timestamp_to_utc_witness :
    (parse_timestamp_to_utc (some "2025-01-01T00:00:00+02:00")
      "timestamp_utc").1 = some (1735689600 - 7200) :=
  (C9_parse_timestamp_to_utc.1 "2025-01-01T00:00:00+02:00"
    { naive := 1735689600, tzOffset := some 7200 } (by decide)).2 7200 rfl

/-! ## Deduplication: `normalize/validate.py` `dedupe_transactions`

`TransactionFact` mirrors `normalize/schema.py`; `lifecycle_stage` is
stored as its value string (`"AUTH"`, `"CLEARING"`, `"SETTLEMENT"`).  The
Python sort key uses `str(x.lifecycle_stage)`, which renders as
`"LifecycleStage.AUTH"` etc.; since all three share the prefix
`"LifecycleStage."`, their lexical order coincides with the order of the
value strings used here.  `best` is a Python dict, embedded with
`dictInsert`/`dictGet`; the final `list.sort` (Timsort, stable) is
embedded with the stable `List.mergeSort`. -/

/-- `normalize.schema.RawSourceRef`. -/
structure RawSourceRef where
  artifactId : String
  objectKey : String
  sourceType : String
  pageNumber : Option Nat := none
  elementId : Option String := none
  sheetName : Option String := none
  sourceRowNumber : Option Nat := none
  rawFieldsUsed : List String := []
deriving DecidableEq, Repr

/-- `normalize.schema.TransactionFact`; `Decimal` amounts and confidence
floats as rationals, the UTC timestamp as its epoch second, extensions as
a string map. -/
structure TransactionFact where
  transactionId : String
  amount : ℚ
  currency : String
  timestampUtc : ℤ
  lifecycleStage : String
  merchantId : String
  cardNetwork : String
  rawSourceRef : RawSourceRef
  confidenceScore : ℚ
  extensions : List (String × Option String) := []
deriving DecidableEq, Repr

/-- Python string comparison: lexicographic on code points.  Mathlib's
`String` order is iterator-based and does not evaluate in the kernel, so
the comparison is embedded directly over the character lists. -/
def charListLt : List Char → List Char → Bool
  | [], [] => false
  | _ :: _, [] => false
  | [], _ :: _ => true
  | a :: as, b :: bs => if a = b then charListLt as bs else decide (a < b)

/-- `s < t` on Python strings. -/
def pyStrLt (s t : String) : Bool := charListLt s.data t.data

theorem charListLt_irrefl : ∀ as, charListLt as as = false
  | [] => rfl
  | a :: as => by
    simp only [charListLt, if_pos rfl]
    exact charListLt_irrefl as

theorem charListLt_asymm : ∀ as bs, charListLt as bs = true →
    charListLt bs as = false
  | [], [], h => by cases h
  | [], _ :: _, _ => rfl
  | _ :: _, [], h => by cases h
  | a :: as, b :: bs, h => by
    by_cases hab : a = b
    · subst hab
      simp only [charListLt, if_pos rfl] at h ⊢
      exact charListLt_asymm as bs h
    · simp only [charListLt, if_neg hab] at h
      simp only [charListLt, if_neg (Ne.symm hab)]
      rw [decide_eq_true_eq] at h
      rw [decide_eq_false_iff_not]
      exact lt_asymm h

theorem charListLt_trans : ∀ as bs cs, charListLt as bs = true →
    charListLt bs cs = true → charListLt as cs = true
  | [], [], _, h1, _ => by cases h1
  | _ :: _, [], _, h1, _ => by cases h1
  | [], _ :: _, [], _, h2 => by cases h2
  | _ :: _, _ :: _, [], _, h2 => by cases h2
  | [], _ :: _, _ :: _, _, _ => rfl
  | a :: as, b :: bs, c :: cs, h1, h2 => by
    by_cases hab : a = b
    · subst hab
      simp only [charListLt, if_pos rfl] at h1
      by_cases hbc : a = c
      · subst hbc
        simp only [charListLt, if_pos rfl] at h2 ⊢
        exact charListLt_trans as bs cs h1 h2
      · simp only [charListLt, if_neg hbc] at h2 ⊢
        exact h2
    · by_cases hbc : b = c
      · subst hbc
        simp only [charListLt, if_neg hab] at h1 ⊢
        exact h1
      · simp only [charListLt, if_neg hab] at h1
        simp only [charListLt, if_neg hbc] at h2
        rw [decide_eq_true_eq] at h1 h2
        have hac : a ≠ c := by
          intro he
          subst he
          exact absurd (h1.trans h2) (lt_irrefl _)
        simp only [charListLt, if_neg hac]
        rw [decide_eq_true_eq]
        exact h1.trans h2

theorem charListLt_eq_or_lt : ∀ as bs : List Char,
    as = bs ∨ charListLt as bs = true ∨ charListLt bs as = true
  | [], [] => Or.inl rfl
  | [], _ :: _ => Or.inr (Or.inl rfl)
  | _ :: _, [] => Or.inr (Or.inr rfl)
  | a :: as, b :: bs => by
    by_cases hab : a = b
    · subst hab
      rcases charListLt_eq_or_lt as bs with h | h | h
      · exact Or.inl (by rw [h])
      · refine Or.inr (Or.inl ?_)
        simp only [charListLt, if_pos rfl]
        exact h
      · refine Or.inr (Or.inr ?_)
        simp only [charListLt, if_pos rfl]
        exact h
    · rcases lt_trichotomy a b with h | h | h
      · refine Or.inr (Or.inl ?_)
        simp only [charListLt, if_neg hab]
        exact decide_eq_true h
      · exact absurd h hab
      · refine Or.inr (Or.inr ?_)
        simp only [charListLt, if_neg (Ne.symm hab)]
        exact decide_eq_true h

theorem pyStrLt_irrefl (s : String) : pyStrLt s s = false :=
  charListLt_irrefl _

theorem pyStrLt_asymm {s t : String} (h : pyStrLt s t = true) :
    pyStrLt t s = false :=
  charListLt_asymm _ _ h

theorem pyStrLt_trans {s t u : String} (h1 : pyStrLt s t = true)
    (h2 : pyStrLt t u = true) : pyStrLt s u = true :=
  charListLt_trans _ _ _ h1 h2

theorem pyStrLt_eq_or_lt (s t : String) :
    s = t ∨ pyStrLt s t = true ∨ pyStrLt t s = true := by
  rcases charListLt_eq_or_lt s.data t.data with h | h | h
  · left
    cases s
    cases t
    simp only at h
    rw [h]
  · exact Or.inr (Or.inl h)
  · exact Or.inr (Or.inr h)

theorem pyStrLt_false_both {s t : String} (h1 : pyStrLt s t = false)
    (h2 : pyStrLt t s = false) : s = t := by
  rcases pyStrLt_eq_or_lt s t with h | h | h
  · exact h
  · rw [h1] at h
    cases h
  · rw [h2] at h
    cases h

theorem pyStrLt_not_lt_trans {s t u : String} (h1 : pyStrLt s t = false)
    (h2 : pyStrLt t u = false) : pyStrLt s u = false := by
  cases hsu : pyStrLt s u with
  | false => rfl
  | true =>
    rcases pyStrLt_eq_or_lt s t with he | hlt | hlt
    · subst he
      rw [hsu] at h2
      cases h2
    · rw [hlt] at h1
      cases h1
    · rcases pyStrLt_eq_or_lt t u with he2 | hlt2 | hlt2
      · subst he2
        rw [hsu] at h1
        cases h1
      · rw [hlt2] at h2
        cases h2
      · have h3 := pyStrLt_trans hlt2 hlt
        have h4 := pyStrLt_asymm h3
        rw [hsu] at h4
        cases h4

/-- `str(x or "")` on an optional int: Python `or` maps both `None` and
`0` to the empty string. -/
def pyOrEmptyNat : Option Nat → String
  | none => ""
  | some 0 => ""
  | some n => toString n

/-- `str(x or "")` on an optional string. -/
def pyOrEmptyStr : Option String → String
  | none => ""
  | some s => s

/-- The composite tie-break string of `dedupe_transactions`:
`"|".join([object_key, page_number, sheet_name, source_row_number,
element_id])` with the `or ""` defaulting above. -/
def tiebreak (t : TransactionFact) : String :=
  String.intercalate "|"
    [t.rawSourceRef.objectKey, pyOrEmptyNat t.rawSourceRef.pageNumber,
     pyOrEmptyStr t.rawSourceRef.sheetName,
     pyOrEmptyNat t.rawSourceRef.sourceRowNumber,
     pyOrEmptyStr t.rawSourceRef.elementId]

/-- The dedup dict key `(t.transaction_id, lifecycle stage value)`. -/
def dedupeKey (t : TransactionFact) : String × String :=
  (t.transactionId, t.lifecycleStage)

/-- The replacement test of the dedup loop: the challenger wins on higher
confidence, or on equal confidence and lexically smaller tie-break. -/
def dedupeReplace (t cur : TransactionFact) : Bool :=
  if cur.confidenceScore < t.confidenceScore then true
  else if t.confidenceScore = cur.confidenceScore then
    pyStrLt (tiebreak t) (tiebreak cur)
  else false

/-- One iteration of `for t in transactions` in `dedupe_transactions`. -/
def dedupeStep (best : List ((String × String) × TransactionFact))
    (t : TransactionFact) : List ((String × String) × TransactionFact) :=
  match dictGet best (dedupeKey t) with
  | none => dictInsert best (dedupeKey t) t
  | some cur =>
    if dedupeReplace t cur then dictInsert best (dedupeKey t) t else best

/-- The output sort key comparison
`(x.transaction_id, str(x.lifecycle_stage), x.confidence_score)`,
lexicographic and non-strict (Timsort ordering). -/
def dedupeLE (a b : TransactionFact) : Bool :=
  if a.transactionId = b.transactionId then
    if a.lifecycleStage = b.lifecycleStage then
      decide (a.confidenceScore ≤ b.confidenceScore)
    else pyStrLt a.lifecycleStage b.lifecycleStage
  else pyStrLt a.transactionId b.transactionId

/-- Embedding of `dedupe_transactions` (validate.py lines 84-117). -/
def dedupe_transactions (ts : List TransactionFact) : List TransactionFact :=
  ((ts.foldl dedupeStep []).map Prod.snd).mergeSort dedupeLE

/-- The spec-side strict preference: `a` beats `b` when it has strictly
higher confidence, or equal confidence and lexically smaller composite
tie-break. -/
def betterThan (a b : TransactionFact) : Prop :=
  b.confidenceScore < a.confidenceScore ∨
    (a.confidenceScore = b.confidenceScore ∧
      pyStrLt (tiebreak a) (tiebreak b) = true)

/-- The determinism proviso: among records sharing a dedup key, equal
confidence and equal composite tie-break only happen for equal records. -/
def TieClean (ts : List TransactionFact) : Prop :=
  ∀ a ∈ ts, ∀ b ∈ ts, dedupeKey a = dedupeKey b →
    a.confidenceScore = b.confidenceScore → tiebreak a = tiebreak b → a = b

instance decidableTieClean (ts : List TransactionFact) :
    Decidable (TieClean ts) := by
  unfold TieClean
  infer_instance

/-- The `best.get(k)` / replace step seen per key. -/
def challenge : Option TransactionFact → TransactionFact →
    Option TransactionFact
  | none, t => some t
  | some c, t => if dedupeReplace t c = true then some t else some c

/-- The survivor of a key: the left fold of `challenge` over the records
carrying that key. -/
def bestOf (ts : List TransactionFact) (k : String × String) :
    Option TransactionFact :=
  (ts.filter fun t => decide (dedupeKey t = k)).foldl challenge none

theorem dedupeReplace_iff (t cur : TransactionFact) :
    dedupeReplace t cur = true ↔ betterThan t cur := by
  unfold dedupeReplace betterThan
  by_cases h1 : cur.confidenceScore < t.confidenceScore
  · simp [h1]
  · by_cases h2 : t.confidenceScore = cur.confidenceScore
    · simp [h1, h2]
    · simp [h1, h2]

theorem betterThan_irrefl (a : TransactionFact) : ¬ betterThan a a := by
  unfold betterThan
  rintro (h | ⟨_, h⟩)
  · exact lt_irrefl _ h
  · rw [pyStrLt_irrefl] at h
    cases h

theorem betterThan_asymm {a b : TransactionFact} (h : betterThan a b) :
    ¬ betterThan b a := by
  unfold betterThan at h ⊢
  rintro (h2 | ⟨he2, ht2⟩)
  · rcases h with h1 | ⟨he1, _⟩
    · exact absurd h2 (lt_asymm h1)
    · rw [he1] at h2
      exact lt_irrefl _ h2
  · rcases h with h1 | ⟨he1, ht1⟩
    · rw [he2] at h1
      exact lt_irrefl _ h1
    · rw [pyStrLt_asymm ht1] at ht2
      cases ht2

theorem notBetter_iff {a b : TransactionFact} :
    ¬ betterThan a b ↔
      a.confidenceScore ≤ b.confidenceScore ∧
        (a.confidenceScore = b.confidenceScore →
          pyStrLt (tiebreak a) (tiebreak b) = false) := by
  unfold betterThan
  constructor
  · intro h
    constructor
    · by_contra hlt
      exact h (Or.inl (not_le.mp hlt))
    · intro he
      cases hx : pyStrLt (tiebreak a) (tiebreak b) with
      | false => rfl
      | true => exact absurd (Or.inr ⟨he, hx⟩) h
  · rintro ⟨h1, h2⟩ (hlt | ⟨he, ht⟩)
    · exact absurd hlt (not_lt.mpr h1)
    · rw [h2 he] at ht
      cases ht

theorem notBetter_trans {a b c : TransactionFact} (hab : ¬ betterThan a b)
    (hbc : ¬ betterThan b c) : ¬ betterThan a c := by
  rw [notBetter_iff] at hab hbc ⊢
  refine ⟨hab.1.trans hbc.1, fun he => ?_⟩
  have he1 : a.confidenceScore = b.confidenceScore :=
    le_antisymm hab.1 (he ▸ hbc.1)
  have he2 : b.confidenceScore = c.confidenceScore := he1 ▸ he
  exact pyStrLt_not_lt_trans (hab.2 he1) (hbc.2 he2)

theorem notBetter_both {a b : TransactionFact} (h1 : ¬ betterThan a b)
    (h2 : ¬ betterThan b a) :
    a.confidenceScore = b.confidenceScore ∧ tiebreak a = tiebreak b := by
  rw [notBetter_iff] at h1 h2
  have he : a.confidenceScore = b.confidenceScore := le_antisymm h1.1 h2.1
  exact ⟨he, pyStrLt_false_both (h1.2 he) (h2.2 he.symm)⟩

theorem challenge_cases (cur : Option TransactionFact) (t : TransactionFact) :
    challenge cur t = some t ∨ ∃ c, cur = some c ∧ challenge cur t = some c := by
  cases cur with
  | none => exact Or.inl rfl
  | some c =>
    by_cases h : dedupeReplace t c = true
    · left
      show (if dedupeReplace t c = true then some t else some c) = some t
      rw [if_pos h]
    · right
      refine ⟨c, rfl, ?_⟩
      show (if dedupeReplace t c = true then some t else some c) = some c
      rw [if_neg h]

theorem foldl_challenge_some (l : List TransactionFact) :
    ∀ c : TransactionFact, ∃ r, l.foldl challenge (some c) = some r := by
  induction l with
  | nil => intro c; exact ⟨c, rfl⟩
  | cons t rest ih =>
    intro c
    show ∃ r, rest.foldl challenge (challenge (some c) t) = some r
    rcases challenge_cases (some c) t with h | ⟨c2, _, h⟩
    · rw [h]; exact ih t
    · rw [h]; exact ih c2

theorem foldl_challenge_mem (l : List TransactionFact) :
    ∀ (acc : Option TransactionFact) (r : TransactionFact),
      l.foldl challenge acc = some r → acc = some r ∨ r ∈ l := by
  induction l with
  | nil => intro acc r h; exact Or.inl h
  | cons t rest ih =>
    intro acc r h
    rcases ih _ r h with hacc | hmem
    · rcases challenge_cases acc t with hch | ⟨c, hc, hch⟩
      · rw [hch] at hacc
        cases hacc
        exact Or.inr (List.mem_cons_self t rest)
      · rw [hch] at hacc
        cases hacc
        exact Or.inl hc
    · exact Or.inr (List.mem_cons_of_mem t hmem)

theorem challenge_opt {acc : Option TransactionFact} {t x : TransactionFact}
    (hx : challenge acc t = some x) :
    ¬ betterThan t x ∧ ∀ c, acc = some c → ¬ betterThan c x := by
  cases acc with
  | none =>
    cases hx
    exact ⟨betterThan_irrefl t, by rintro c ⟨⟩⟩
  | some c =>
    replace hx : (if dedupeReplace t c = true then some t else some c) =
        some x := hx
    by_cases hrep : dedupeReplace t c = true
    · rw [if_pos hrep] at hx
      have ht := Option.some.inj hx
      subst ht
      refine ⟨betterThan_irrefl t, ?_⟩
      rintro c2 hc2
      have h2 := Option.some.inj hc2
      subst h2
      exact betterThan_asymm ((dedupeReplace_iff t c).mp hrep)
    · rw [if_neg hrep] at hx
      have hcx := Option.some.inj hx
      subst hcx
      refine ⟨fun hb => hrep ((dedupeReplace_iff t c).mpr hb), ?_⟩
      rintro c2 hc2
      have h2 := Option.some.inj hc2
      subst h2
      exact betterThan_irrefl c

theorem foldl_challenge_opt (l : List TransactionFact) :
    ∀ (acc : Option TransactionFact) (r : TransactionFact),
      l.foldl challenge acc = some r →
      (∀ c, acc = some c → ¬ betterThan c r) ∧ ∀ u ∈ l, ¬ betterThan u r := by
  induction l with
  | nil =>
    intro acc r h
    refine ⟨?_, by simp⟩
    intro c hc
    rw [hc] at h
    have h2 := Option.some.inj h
    subst h2
    exact betterThan_irrefl c
  | cons t rest ih =>
    intro acc r h
    obtain ⟨hacc', hrest⟩ := ih (challenge acc t) r h
    obtain ⟨x, hx⟩ : ∃ x, challenge acc t = some x := by
      rcases challenge_cases acc t with hch | ⟨c, _, hch⟩
      · exact ⟨t, hch⟩
      · exact ⟨c, hch⟩
    obtain ⟨hxt, hxacc⟩ := challenge_opt hx
    have hxr : ¬ betterThan x r := hacc' x hx
    refine ⟨fun c hc => notBetter_trans (hxacc c hc) hxr, ?_⟩
    intro u hu
    rcases List.mem_cons.mp hu with rfl | hu'
    · exact notBetter_trans hxt hxr
    · exact hrest u hu'

theorem bestOf_eq_none_iff (ts : List TransactionFact) (k : String × String) :
    bestOf ts k = none ↔
      (ts.filter fun t => decide (dedupeKey t = k)) = [] := by
  unfold bestOf
  cases hf : ts.filter fun t => decide (dedupeKey t = k) with
  | nil => simp
  | cons t rest =>
    obtain ⟨r, hr⟩ := foldl_challenge_some rest t
    have : (t :: rest).foldl challenge none = some r := by
      show rest.foldl challenge (challenge none t) = some r
      exact hr
    simp [this]

/-- `t` is an input record of key `k` beaten by no input record of the
same key. -/
def IsBest (ts : List TransactionFact) (k : String × String)
    (t : TransactionFact) : Prop :=
  t ∈ ts ∧ dedupeKey t = k ∧
    ∀ u ∈ ts, dedupeKey u = k → ¬ betterThan u t

theorem bestOf_isBest {ts : List TransactionFact} {k : String × String}
    {r : TransactionFact} (h : bestOf ts k = some r) : IsBest ts k r := by
  rcases foldl_challenge_mem _ _ _ h with h0 | hmem
  · cases h0
  · have hmem' := List.mem_filter.mp hmem
    obtain ⟨_, hopt⟩ := foldl_challenge_opt _ _ _ h
    refine ⟨hmem'.1, by simpa using hmem'.2, ?_⟩
    intro u hu hk
    exact hopt u (List.mem_filter.mpr ⟨hu, by simpa using hk⟩)

theorem isBest_unique {ts : List TransactionFact} {k : String × String}
    {t1 t2 : TransactionFact} (hc : TieClean ts) (h1 : IsBest ts k t1)
    (h2 : IsBest ts k t2) : t1 = t2 := by
  have hnb1 : ¬ betterThan t1 t2 := h2.2.2 t1 h1.1 h1.2.1
  have hnb2 : ¬ betterThan t2 t1 := h1.2.2 t2 h2.1 h2.2.1
  obtain ⟨hce, hte⟩ := notBetter_both hnb1 hnb2
  exact hc t1 h1.1 t2 h2.1 (h1.2.1.trans h2.2.1.symm) hce hte

theorem isBest_of_perm {ts ts' : List TransactionFact} {k : String × String}
    {t : TransactionFact} (hp : ts.Perm ts') (h : IsBest ts k t) :
    IsBest ts' k t :=
  ⟨hp.subset h.1, h.2.1, fun u hu hk => h.2.2 u (hp.symm.subset hu) hk⟩

theorem bestOf_perm {ts ts' : List TransactionFact} (hp : ts.Perm ts')
    (hc : TieClean ts) (k : String × String) : bestOf ts k = bestOf ts' k := by
  have hc' : TieClean ts' := fun a ha b hb =>
    hc a (hp.symm.subset ha) b (hp.symm.subset hb)
  cases h1 : bestOf ts k with
  | none =>
    cases h2 : bestOf ts' k with
    | none => rfl
    | some r =>
      have hb := bestOf_isBest h2
      have hr : r ∈ ts := hp.symm.subset hb.1
      have hfil : r ∈ ts.filter fun t => decide (dedupeKey t = k) :=
        List.mem_filter.mpr ⟨hr, by simpa using hb.2.1⟩
      rw [bestOf_eq_none_iff] at h1
      rw [h1] at hfil
      cases hfil
  | some r =>
    have hb := isBest_of_perm hp (bestOf_isBest h1)
    cases h2 : bestOf ts' k with
    | none =>
      rw [bestOf_eq_none_iff] at h2
      have hfil : r ∈ ts'.filter fun t => decide (dedupeKey t = k) :=
        List.mem_filter.mpr ⟨hb.1, by simpa using hb.2.1⟩
      rw [h2] at hfil
      cases hfil
    | some r' =>
      have hb' := bestOf_isBest h2
      rw [isBest_unique hc' hb hb']

theorem mem_dictInsert {K V : Type} [DecidableEq K] :
    ∀ (d : List (K × V)) (k : K) (v : V) (p : K × V),
      p ∈ dictInsert d k v → p = (k, v) ∨ p ∈ d
  | [], k, v, p, h => by
    simp only [dictInsert, List.mem_singleton] at h
    exact Or.inl h
  | (k1, v1) :: rest, k, v, p, h => by
    by_cases hk : k1 = k
    · subst hk
      rw [dictInsert, if_pos rfl] at h
      rcases List.mem_cons.mp h with h1 | h1
      · exact Or.inl h1
      · exact Or.inr (List.mem_cons_of_mem _ h1)
    · rw [dictInsert, if_neg hk] at h
      rcases List.mem_cons.mp h with h1 | h1
      · exact Or.inr (by rw [h1]; exact List.mem_cons_self _ _)
      · rcases mem_dictInsert rest k v p h1 with h2 | h2
        · exact Or.inl h2
        · exact Or.inr (List.mem_cons_of_mem _ h2)

theorem keys_dictInsert {K V : Type} [DecidableEq K] :
    ∀ (d : List (K × V)) (k : K) (v : V),
      (dictInsert d k v).map Prod.fst =
        if k ∈ d.map Prod.fst then d.map Prod.fst
        else d.map Prod.fst ++ [k]
  | [], k, v => by simp [dictInsert]
  | (k1, v1) :: rest, k, v => by
    by_cases hk : k1 = k
    · subst hk
      rw [dictInsert, if_pos rfl]
      simp
    · rw [dictInsert, if_neg hk, List.map_cons, List.map_cons,
        keys_dictInsert rest k v]
      by_cases hmem : k ∈ rest.map Prod.fst
      · rw [if_pos hmem, if_pos (List.mem_cons_of_mem _ hmem)]
      · have hnot : ¬ k ∈ k1 :: rest.map Prod.fst := by
          intro hmem2
          rcases List.mem_cons.mp hmem2 with h2 | h2
          · exact hk h2.symm
          · exact hmem h2
        rw [if_neg hmem, if_neg hnot, List.cons_append]

/-- The dedup dict invariant: every entry's key is its value's dedup key,
and keys are pairwise distinct. -/
def DictWF (d : List ((String × String) × TransactionFact)) : Prop :=
  (∀ p ∈ d, p.1 = dedupeKey p.2) ∧ (d.map Prod.fst).Nodup

theorem dictWF_dictInsert {d : List ((String × String) × TransactionFact)}
    (h : DictWF d) (t : TransactionFact) :
    DictWF (dictInsert d (dedupeKey t) t) := by
  constructor
  · intro p hp
    rcases mem_dictInsert d (dedupeKey t) t p hp with rfl | hp2
    · rfl
    · exact h.1 p hp2
  · rw [keys_dictInsert]
    by_cases hmem : dedupeKey t ∈ d.map Prod.fst
    · rw [if_pos hmem]
      exact h.2
    · rw [if_neg hmem]
      simp [List.nodup_append, h.2, hmem]

theorem dictWF_dedupeStep {d : List ((String × String) × TransactionFact)}
    (h : DictWF d) (t : TransactionFact) : DictWF (dedupeStep d t) := by
  unfold dedupeStep
  cases hg : dictGet d (dedupeKey t) with
  | none => exact dictWF_dictInsert h t
  | some c =>
    show DictWF
      (if dedupeReplace t c = true then dictInsert d (dedupeKey t) t else d)
    by_cases hrep : dedupeReplace t c = true
    · rw [if_pos hrep]
      exact dictWF_dictInsert h t
    · rw [if_neg hrep]
      exact h

theorem dictGet_dedupeStep (d : List ((String × String) × TransactionFact))
    (t : TransactionFact) (k : String × String) :
    dictGet (dedupeStep d t) k =
      if dedupeKey t = k then challenge (dictGet d k) t else dictGet d k := by
  unfold dedupeStep
  by_cases hk : dedupeKey t = k
  · subst hk
    rw [if_pos rfl]
    cases hg : dictGet d (dedupeKey t) with
    | none => exact dictGet_dictInsert_self d _ t
    | some c =>
      show dictGet
          (if dedupeReplace t c = true then dictInsert d (dedupeKey t) t
            else d) (dedupeKey t) =
        challenge (some c) t
      by_cases hrep : dedupeReplace t c = true
      · rw [if_pos hrep]
        show dictGet (dictInsert d (dedupeKey t) t) (dedupeKey t) =
          if dedupeReplace t c = true then some t else some c
        rw [if_pos hrep]
        exact dictGet_dictInsert_self d _ t
      · rw [if_neg hrep]
        show dictGet d (dedupeKey t) =
          if dedupeReplace t c = true then some t else some c
        rw [if_neg hrep]
        exact hg
  · rw [if_neg hk]
    cases hg : dictGet d (dedupeKey t) with
    | none => exact dictGet_dictInsert_ne d _ k t hk
    | some c =>
      show dictGet
          (if dedupeReplace t c = true then dictInsert d (dedupeKey t) t
            else d) k = dictGet d k
      by_cases hrep : dedupeReplace t c = true
      · rw [if_pos hrep]
        exact dictGet_dictInsert_ne d _ k t hk
      · rw [if_neg hrep]

theorem dictGet_foldl_dedupeStep (ts : List TransactionFact) :
    ∀ (acc : List ((String × String) × TransactionFact)) (k : String × String),
      dictGet (ts.foldl dedupeStep acc) k =
        (ts.filter fun t => decide (dedupeKey t = k)).foldl challenge
          (dictGet acc k) := by
  induction ts with
  | nil => intro acc k; rfl
  | cons t rest ih =>
    intro acc k
    show dictGet (rest.foldl dedupeStep (dedupeStep acc t)) k = _
    rw [ih (dedupeStep acc t) k, dictGet_dedupeStep]
    by_cases hk : dedupeKey t = k
    · rw [if_pos hk, List.filter_cons_of_pos (by simpa using hk)]
      rfl
    · rw [if_neg hk, List.filter_cons_of_neg (by simpa using hk)]

theorem dictWF_foldl (ts : List TransactionFact) :
    ∀ acc : List ((String × String) × TransactionFact),
      DictWF acc → DictWF (ts.foldl dedupeStep acc) := by
  induction ts with
  | nil => intro acc h; exact h
  | cons t rest ih =>
    intro acc h
    exact ih (dedupeStep acc t) (dictWF_dedupeStep h t)

theorem dictGet_dedupe_fold (ts : List TransactionFact)
    (k : String × String) :
    dictGet (ts.foldl dedupeStep []) k = bestOf ts k := by
  rw [dictGet_foldl_dedupeStep ts [] k]
  rfl

theorem dictGet_eq_some_iff_mem {K V : Type} [DecidableEq K] :
    ∀ {d : List (K × V)}, (d.map Prod.fst).Nodup → ∀ (k : K) (v : V),
      (dictGet d k = some v ↔ (k, v) ∈ d) := by
  intro d
  induction d with
  | nil =>
    intro _ k v
    simp [dictGet]
  | cons q rest ih =>
    intro hnd k v
    obtain ⟨k1, v1⟩ := q
    rw [List.map_cons, List.nodup_cons] at hnd
    by_cases hk : k1 = k
    · subst hk
      rw [dictGet, if_pos rfl]
      constructor
      · intro h
        exact List.mem_cons.mpr (Or.inl (by rw [Option.some.inj h]))
      · intro h
        rcases List.mem_cons.mp h with h1 | h1
        · rw [show v = v1 from congrArg Prod.snd h1]
        · exact absurd (List.mem_map.mpr ⟨(k1, v), h1, rfl⟩) hnd.1
    · rw [dictGet, if_neg hk, ih hnd.2 k v]
      constructor
      · exact fun h => List.mem_cons_of_mem _ h
      · intro h
        rcases List.mem_cons.mp h with h1 | h1
        · exact absurd (show k = k1 from congrArg Prod.fst h1).symm hk
        · exact h1

theorem mem_dedupe_values_iff (ts : List TransactionFact)
    (t : TransactionFact) :
    t ∈ (ts.foldl dedupeStep []).map Prod.snd ↔
      bestOf ts (dedupeKey t) = some t := by
  have hwf := dictWF_foldl ts [] ⟨by simp, by simp⟩
  constructor
  · intro h
    obtain ⟨p, hp, hpt⟩ := List.mem_map.mp h
    have hkey := hwf.1 p hp
    have hget : dictGet (ts.foldl dedupeStep []) p.1 = some p.2 :=
      (dictGet_eq_some_iff_mem hwf.2 p.1 p.2).mpr (by
        obtain ⟨a, b⟩ := p
        exact hp)
    rw [dictGet_dedupe_fold] at hget
    subst hpt
    rw [← hkey]
    exact hget
  · intro h
    rw [← dictGet_dedupe_fold] at h
    have hmem := (dictGet_eq_some_iff_mem hwf.2 _ _).mp h
    exact List.mem_map.mpr ⟨(dedupeKey t, t), hmem, rfl⟩

theorem nodup_dedupe_values (ts : List TransactionFact) :
    ((ts.foldl dedupeStep []).map Prod.snd).Nodup := by
  have hwf := dictWF_foldl ts [] ⟨by simp, by simp⟩
  have hd : (ts.foldl dedupeStep []).Nodup := List.Nodup.of_map _ hwf.2
  refine List.Nodup.map_on ?_ hd
  intro p hp q hq hpq
  have h1 := hwf.1 p hp
  have h2 := hwf.1 q hq
  have hfst : p.1 = q.1 := by
    rw [h1, h2, hpq]
  exact Prod.ext_iff.mpr ⟨hfst, hpq⟩

theorem pairwise_keys_dedupe_values (ts : List TransactionFact) :
    ((ts.foldl dedupeStep []).map Prod.snd).Pairwise
      (fun a b => dedupeKey a ≠ dedupeKey b) := by
  have hwf := dictWF_foldl ts [] ⟨by simp, by simp⟩
  have hkeys : ((ts.foldl dedupeStep []).map Prod.fst).Pairwise (· ≠ ·) :=
    hwf.2
  rw [List.pairwise_map] at hkeys ⊢
  refine List.Pairwise.imp_of_mem ?_ hkeys
  intro p q hp hq hne
  rw [hwf.1 p hp, hwf.1 q hq] at hne
  exact hne

theorem eq_of_perm_of_sorted_on {α : Type} {le : α → α → Bool} :
    ∀ {l₁ l₂ : List α}, l₁.Perm l₂ →
      l₁.Pairwise (fun a b => le a b = true) →
      l₂.Pairwise (fun a b => le a b = true) →
      (∀ a ∈ l₁, ∀ b ∈ l₁, le a b = true → le b a = true → a = b) →
      l₁ = l₂ := by
  intro l₁
  induction l₁ with
  | nil =>
    intro l₂ hp _ _ _
    exact hp.nil_eq
  | cons a t ih =>
    intro l₂ hp hs₁ hs₂ hanti
    have ha2 : a ∈ l₂ := hp.subset (List.mem_cons_self a t)
    obtain ⟨u₂, v₂, rfl⟩ := List.append_of_mem ha2
    have hp' : t.Perm (u₂ ++ v₂) :=
      (List.perm_cons a).1 (hp.trans List.perm_middle)
    have hs₁' := List.Pairwise.of_cons hs₁
    have h₁ := (List.pairwise_cons.mp hs₁).1
    have hanti' : ∀ x ∈ t, ∀ y ∈ t, le x y = true → le y x = true → x = y :=
      fun x hx y hy =>
        hanti x (List.mem_cons_of_mem a hx) y (List.mem_cons_of_mem a hy)
    have hs₂' : (u₂ ++ v₂).Pairwise (fun a b => le a b = true) :=
      hs₂.sublist (by simp)
    have IH := ih hp' hs₁' hs₂' hanti'
    rw [IH]
    have hxa : ∀ x ∈ u₂, x = a := by
      intro x hx
      have hx2 : le x a = true :=
        (List.pairwise_append.mp hs₂).2.2 x hx a (List.mem_cons_self a v₂)
      have hxt : x ∈ t := hp'.symm.subset (List.mem_append.mpr (Or.inl hx))
      have hax : le a x = true := h₁ x hxt
      exact hanti x (List.mem_cons_of_mem a hxt) a (List.mem_cons_self a t)
        hx2 hax
    have h1 : a :: u₂ = List.replicate (u₂.length + 1) a := by
      rw [List.eq_replicate_iff]
      refine ⟨by simp, ?_⟩
      intro b hb
      rcases List.mem_cons.mp hb with rfl | hb
      · rfl
      · exact hxa b hb
    have h2 : u₂ ++ [a] = List.replicate (u₂.length + 1) a := by
      rw [List.eq_replicate_iff]
      refine ⟨by simp, ?_⟩
      intro b hb
      rcases List.mem_append.mp hb with hb | hb
      · exact hxa b hb
      · rw [List.mem_singleton.mp hb]
    calc a :: (u₂ ++ v₂) = (a :: u₂) ++ v₂ := by simp
      _ = (u₂ ++ [a]) ++ v₂ := by rw [h1, h2]
      _ = u₂ ++ a :: v₂ := by simp

theorem dedupeLE_trans (a b c : TransactionFact) (hab : dedupeLE a b = true)
    (hbc : dedupeLE b c = true) : dedupeLE a c = true := by
  unfold dedupeLE at hab hbc ⊢
  by_cases h1 : a.transactionId = b.transactionId
  · rw [if_pos h1] at hab
    by_cases h2 : b.transactionId = c.transactionId
    · rw [if_pos h2] at hbc
      rw [if_pos (h1.trans h2)]
      by_cases s1 : a.lifecycleStage = b.lifecycleStage
      · rw [if_pos s1] at hab
        by_cases s2 : b.lifecycleStage = c.lifecycleStage
        · rw [if_pos s2] at hbc
          rw [if_pos (s1.trans s2), decide_eq_true_eq]
          rw [decide_eq_true_eq] at hab hbc
          exact hab.trans hbc
        · rw [if_neg s2] at hbc
          rw [if_neg (fun he => s2 (s1.symm.trans he)), s1]
          exact hbc
      · rw [if_neg s1] at hab
        by_cases s2 : b.lifecycleStage = c.lifecycleStage
        · rw [if_neg (fun he => s1 (he.trans s2.symm)), ← s2]
          exact hab
        · rw [if_neg s2] at hbc
          by_cases s3 : a.lifecycleStage = c.lifecycleStage
          · rw [s3] at hab
            rw [pyStrLt_asymm hab] at hbc
            cases hbc
          · rw [if_neg s3]
            exact pyStrLt_trans hab hbc
    · rw [if_neg h2] at hbc
      rw [if_neg (fun he => h2 (h1.symm.trans he)), h1]
      exact hbc
  · rw [if_neg h1] at hab
    by_cases h2 : b.transactionId = c.transactionId
    · rw [if_neg (fun he => h1 (he.trans h2.symm)), ← h2]
      exact hab
    · rw [if_neg h2] at hbc
      by_cases h3 : a.transactionId = c.transactionId
      · rw [h3] at hab
        rw [pyStrLt_asymm hab] at hbc
        cases hbc
      · rw [if_neg h3]
        exact pyStrLt_trans hab hbc

theorem dedupeLE_total (a b : TransactionFact) :
    dedupeLE a b = true ∨ dedupeLE b a = true := by
  unfold dedupeLE
  by_cases h1 : a.transactionId = b.transactionId
  · rw [if_pos h1, if_pos h1.symm]
    by_cases h2 : a.lifecycleStage = b.lifecycleStage
    · rw [if_pos h2, if_pos h2.symm]
      rcases le_total a.confidenceScore b.confidenceScore with h | h
      · exact Or.inl (decide_eq_true h)
      · exact Or.inr (decide_eq_true h)
    · rw [if_neg h2, if_neg (fun he => h2 he.symm)]
      rcases pyStrLt_eq_or_lt a.lifecycleStage b.lifecycleStage with he | h | h
      · exact absurd he h2
      · exact Or.inl h
      · exact Or.inr h
  · rw [if_neg h1, if_neg (fun he => h1 he.symm)]
    rcases pyStrLt_eq_or_lt a.transactionId b.transactionId with he | h | h
    · exact absurd he h1
    · exact Or.inl h
    · exact Or.inr h

theorem dedupeLE_antisymm_key {a b : TransactionFact}
    (hab : dedupeLE a b = true) (hba : dedupeLE b a = true) :
    dedupeKey a = dedupeKey b := by
  unfold dedupeLE at hab hba
  by_cases h1 : a.transactionId = b.transactionId
  · rw [if_pos h1] at hab
    rw [if_pos h1.symm] at hba
    by_cases h2 : a.lifecycleStage = b.lifecycleStage
    · unfold dedupeKey
      rw [h1, h2]
    · rw [if_neg h2] at hab
      rw [if_neg (fun he => h2 he.symm)] at hba
      rw [pyStrLt_asymm hab] at hba
      cases hba
  · rw [if_neg h1] at hab
    rw [if_neg (fun he => h1 he.symm)] at hba
    rw [pyStrLt_asymm hab] at hba
    cases hba

theorem dedupe_values_antisymm (ts : List TransactionFact) :
    ∀ a ∈ (ts.foldl dedupeStep []).map Prod.snd,
      ∀ b ∈ (ts.foldl dedupeStep []).map Prod.snd,
        dedupeLE a b = true → dedupeLE b a = true → a = b := by
  intro a ha b hb hab hba
  have hk := dedupeLE_antisymm_key hab hba
  rw [mem_dedupe_values_iff] at ha hb
  rw [hk] at ha
  exact Option.some.inj (ha.symm.trans hb)

/-- C4: `dedupe_transactions` keeps exactly one record per
`(transaction_id, lifecycle_stage)` key — one that no same-key input
record beats on (confidence, then lexically smaller composite tie-break
string) — and sorts the output ascending by
(transaction_id, lifecycle_stage, confidence_score).  The claim's
order-independence holds under the proviso (`TieClean`) that distinct
same-key records never tie on both confidence and composite string; the
accompanying counterexample shows it fails without that proviso. -/
theorem C4_dedupe_transactions :
    ∀ ts : List TransactionFact,
      ((dedupe_transactions ts).Pairwise
        fun a b => dedupeKey a ≠ dedupeKey b) ∧
      (∀ t ∈ ts, ∃ u ∈ dedupe_transactions ts,
        dedupeKey u = dedupeKey t) ∧
      (∀ u ∈ dedupe_transactions ts, u ∈ ts ∧
        ∀ v ∈ ts, dedupeKey v = dedupeKey u → ¬ betterThan v u) ∧
      ((dedupe_transactions ts).Pairwise fun a b => dedupeLE a b = true) ∧
      (∀ ts' : List TransactionFact, ts.Perm ts' → TieClean ts →
        dedupe_transactions ts' = dedupe_transactions ts) := by
  intro ts
  refine ⟨?_, ?_, ?_, ?_, ?_⟩
  · have hpw := pairwise_keys_dedupe_values ts
    have hperm :=
      List.mergeSort_perm ((ts.foldl dedupeStep []).map Prod.snd) dedupeLE
    exact (hperm.pairwise_iff fun h => Ne.symm h).mpr hpw
  · intro t ht
    cases hb : bestOf ts (dedupeKey t) with
    | none =>
      rw [bestOf_eq_none_iff] at hb
      have hmem : t ∈ ts.filter fun u => decide (dedupeKey u = dedupeKey t) :=
        List.mem_filter.mpr ⟨ht, by simp⟩
      rw [hb] at hmem
      cases hmem
    | some u =>
      have hbb := bestOf_isBest hb
      refine ⟨u, ?_, hbb.2.1⟩
      unfold dedupe_transactions
      rw [List.mem_mergeSort, mem_dedupe_values_iff, hbb.2.1]
      exact hb
  · intro u hu
    unfold dedupe_transactions at hu
    rw [List.mem_mergeSort, mem_dedupe_values_iff] at hu
    have hbb := bestOf_isBest hu
    exact ⟨hbb.1, fun v hv hk => hbb.2.2 v hv hk⟩
  · exact (List.sorted_mergeSort dedupeLE_trans
      (fun a b => Bool.or_eq_true _ _ |>.mpr (dedupeLE_total a b)) _).imp
      (fun h => h)
  · intro ts' hp hc
    unfold dedupe_transactions
    have hv : ((ts'.foldl dedupeStep []).map Prod.snd).Perm
        ((ts.foldl dedupeStep []).map Prod.snd) := by
      rw [List.perm_ext_iff_of_nodup (nodup_dedupe_values ts')
        (nodup_dedupe_values ts)]
      intro t
      rw [mem_dedupe_values_iff, mem_dedupe_values_iff,
        ← bestOf_perm hp hc (dedupeKey t)]
    refine eq_of_perm_of_sorted_on
      ((List.mergeSort_perm _ dedupeLE).trans
        (hv.trans (List.mergeSort_perm _ dedupeLE).symm))
      ((List.sorted_mergeSort dedupeLE_trans
        (fun a b => Bool.or_eq_true _ _ |>.mpr (dedupeLE_total a b)) _).imp
        (fun h => h))
      ((List.sorted_mergeSort dedupeLE_trans
        (fun a b => Bool.or_eq_true _ _ |>.mpr (dedupeLE_total a b)) _).imp
        (fun h => h))
      ?_
    intro a ha b hb hab hba
    rw [List.mem_mergeSort] at ha hb
    exact dedupe_values_antisymm ts' a ha b hb hab hba

/-- Shared raw-source reference of the C4 counterexample records. -/
def cxRef : RawSourceRef :=
  { artifactId := "art-1", objectKey := "raw/abc.csv",
    sourceType := "csv_row", sheetName := some "s1",
    sourceRowNumber := some 3 }

/-- C4 counterexample record: key ("T1","AUTH"), confidence 1. -/
def cxA : TransactionFact :=
  { transactionId := "T1", amount := 1, currency := "USD",
    timestampUtc := 0, lifecycleStage := "AUTH", merchantId := "M1",
    cardNetwork := "VISA", rawSourceRef := cxRef, confidenceScore := 1 }

/-- C4 counterexample record: same key, confidence and composite string
as `cxA` but a different amount. -/
def cxB : TransactionFact := { cxA with amount := 2 }

/-- C4 witness record: same key as `cxA`, lower confidence. -/
def cxC : TransactionFact := { cxA with amount := 3, confidenceScore := 0 }

/-- C4 as stated is false: two distinct records with the same key, the
same confidence and the same composite tie-break string — differing only
in `amount` — make the output depend on input order, so
`dedupe_transactions` is not invariant under permutation of its input. -/
theorem C4_counterexample :
    [cxA, cxB].Perm [cxB, cxA] ∧
    dedupe_transactions [cxA, cxB] = [cxA] ∧
    dedupe_transactions [cxB, cxA] = [cxB] ∧
    cxA ≠ cxB := by
  refine ⟨List.Perm.swap cxB cxA [], ?_, ?_, by decide⟩
  · have h : ([cxA, cxB].foldl dedupeStep []).map Prod.snd = [cxA] := by
      decide
    unfold dedupe_transactions
    rw [h, List.mergeSort_singleton]
  · have h : ([cxB, cxA].foldl dedupeStep []).map Prod.snd = [cxB] := by
      decide
    unfold dedupe_transactions
    rw [h, List.mergeSort_singleton]

/-- Witness for C4: the determinism clause applied to a concrete
tie-clean two-record input and its swap. -/
theorem C4_dedupe_transactions_witness :
    [cxA, cxC].Perm [cxC, cxA] ∧ TieClean [cxA, cxC] ∧
    dedupe_transactions [cxC, cxA] = dedupe_transactions [cxA, cxC] := by
  have hp : [cxA, cxC].Perm [cxC, cxA] := List.Perm.swap cxC cxA []
  have hc : TieClean [cxA, cxC] := by decide
  exact ⟨hp, hc, (C4_dedupe_transactions [cxA, cxC]).2.2.2.2 [cxC, cxA] hp hc⟩

/-! ## Normalization flow: `normalize/llm_mapper.py` and `normalize/flow.py`

The LLM network call (`chat_json` + schema validation) is an external
oracle; its validated response is a parameter.  `infer_mapping_via_llm`
contributes the configuration check and the confidence thresholding;
`MappingRejected` is its raised exception.  The sample-building and
prompt-context code of `normalize_tabular` only feeds the oracle and does
not affect any modelled output, so it is not embedded. -/

/-- `normalize.schema.MappingDecision`. -/
structure MappingDecision where
  rawField : String
  canonicalField : String
  confidenceScore : ℚ
  mappingRationale : String
deriving DecidableEq, Repr

/-- `normalize.schema.LifecycleInference`; the stage as its value string. -/
structure LifecycleInference where
  lifecycleStage : String
  confidenceScore : ℚ
  mappingRationale : String
deriving DecidableEq, Repr

/-- `normalize.schema.LlmMappingResponse`. -/
structure LlmMappingResponse where
  lifecycle : LifecycleInference
  mappings : List MappingDecision
deriving DecidableEq, Repr

/-- The two `MappingRejected` raises of `infer_mapping_via_llm`. -/
inductive MappingRejected
  | llmNotConfigured
  | lifecycleBelowThreshold
deriving DecidableEq, Repr

/-- `str(e)` for a `MappingRejected`. -/
def mappingRejectedMessage : MappingRejected → String
  | .llmNotConfigured => "llm_not_configured (LLM_BASE_URL/LLM_API_KEY required)"
  | .lifecycleBelowThreshold => "lifecycle_inference_below_threshold"

/-- Embedding of `infer_mapping_via_llm` (llm_mapper.py lines 15-58):
raise when the LLM is not configured; drop the mappings whose confidence
is below `settings.mapping_confidence_threshold`; raise when the
lifecycle classification's confidence is below that threshold. -/
def infer_mapping_via_llm (llmConfigured : Bool) (thr : ℚ)
    (oracle : LlmMappingResponse) :
    Except MappingRejected LlmMappingResponse :=
  if llmConfigured = false then Except.error .llmNotConfigured
  else
    let kept := oracle.mappings.filter fun m => decide (m.confidenceScore ≥ thr)
    if oracle.lifecycle.confidenceScore < thr then
      Except.error .lifecycleBelowThreshold
    else Except.ok { lifecycle := oracle.lifecycle, mappings := kept }

/-- One row of a parsed table: its source row number and its
`values` dict (JSON null cells are `none`; other cells through `str`). -/
structure TabRow where
  sourceRowNumber : Option Nat
  values : List (String × Option String)
deriving DecidableEq, Repr

/-- One table of the tabular intermediate JSON. -/
structure TabTable where
  sheetName : Option String
  columnsNormalized : List String
  columnsOriginal : List String
  rows : List TabRow
deriving DecidableEq, Repr

/-- The tabular intermediate JSON (`kind` is `"csv"` or `"xlsx"`). -/
structure TabularJson where
  kind : String
  tables : List TabTable
deriving DecidableEq, Repr

/-- `normalize.schema.ReportFact`. -/
structure ReportFact where
  reportId : String
  reportType : String
  ingestionTime : ℤ
  sourceNetwork : String
  recordCount : Nat
  schemaVersion : String := "1.0.0"
deriving DecidableEq, Repr

/-- `normalize.schema.NormalizationResult`. -/
structure NormalizationResult where
  artifactId : String
  reportFact : ReportFact
  transactions : List TransactionFact
  mapping : Option LlmMappingResponse
  errors : List ValidationErrorItem
deriving DecidableEq, Repr

/-- `flow._report_fact`. -/
def reportFactOf (reportId reportType : String) (ingestionTime : ℤ)
    (sourceNetwork : String) (recordCount : Nat) : ReportFact :=
  { reportId := reportId, reportType := reportType,
    ingestionTime := ingestionTime, sourceNetwork := sourceNetwork,
    recordCount := recordCount }

/-- `norm_to_orig` of `normalize_tabular`: normalized header → original
header, falling back to the normalized name past the end. -/
def normToOrig (ncols ocols : List String) : List (String × String) :=
  ncols.enum.foldl
    (fun d p => dictInsert d p.2 ((ocols.get? p.1).getD p.2)) []

/-- The rationale-lineage rewrite of `normalize_tabular` (flow.py lines
124-127); Python truthiness makes an empty original header a no-op. -/
def updateRationale (nto : List (String × String)) (m : MappingDecision) :
    MappingDecision :=
  match dictGet nto m.rawField with
  | some orig =>
    if orig ≠ "" ∧ orig ≠ m.rawField then
      { m with mappingRationale :=
          m.mappingRationale ++ " (original_header=" ++ orig ++ ")" }
    else m
  | none => m

/-- `get_by_canon` together with its `raw_fields_used` append: the first
dict entry mapping to `canon` supplies the raw field (recorded even when
the row has no value under it) and the row value. -/
def getByCanon (rtc : List (String × String))
    (values : List (String × Option String)) (canon : String) :
    Option String × List String :=
  match rtc.find? fun p => decide (p.2 = canon) with
  | none => (none, [])
  | some p => ((dictGet values p.1).join, [p.1])

/-- Python required-field truthiness check:
`not v or not str(v).strip()` for string cells. -/
def pyMissing (v : Option String) : Bool :=
  match v with
  | none => true
  | some s => decide (trimChars s.data = [])

/-- One iteration of the row loop of `normalize_tabular` (flow.py lines
135-202): canonical extraction, hard-fail validation of
amount/currency/timestamp, required-field checks, mean mapping
confidence. -/
def processRow (mappings : List MappingDecision)
    (rtc : List (String × String)) (lifecycle : String)
    (artifactId sourceObjectKey sourceType : String) (sheet : Option String)
    (r : TabRow) : Except (List ValidationErrorItem) TransactionFact :=
  let g1 := getByCanon rtc r.values "transaction_id"
  let g2 := getByCanon rtc r.values "amount"
  let g3 := getByCanon rtc r.values "currency"
  let g4 := getByCanon rtc r.values "timestamp_utc"
  let g5 := getByCanon rtc r.values "merchant_id"
  let g6 := getByCanon rtc r.values "card_network"
  let rawFieldsUsed := g1.2 ++ g2.2 ++ g3.2 ++ g4.2 ++ g5.2 ++ g6.2
  let pa := parse_amount g2.1 "amount"
  let pc := validate_currency g3.1 "currency"
  let pt := parse_timestamp_to_utc g4.1 "timestamp_utc"
  if !(pa.2.isEmpty && pc.2.isEmpty && pt.2.isEmpty) then
    Except.error (pa.2 ++ pc.2 ++ pt.2)
  else if pyMissing g1.1 then
    Except.error [{ code := "transaction_id_missing",
                    message := "transaction_id missing",
                    field := some "transaction_id" }]
  else if pyMissing g5.1 then
    Except.error [{ code := "merchant_id_missing",
                    message := "merchant_id missing",
                    field := some "merchant_id" }]
  else if pyMissing g6.1 then
    Except.error [{ code := "card_network_missing",
                    message := "card_network missing",
                    field := some "card_network" }]
  else
    let confs := (mappings.filter fun m =>
      decide (m.rawField ∈ rawFieldsUsed)).map (·.confidenceScore)
    let conf := clamp01 (confs.sum / (max 1 confs.length : ℚ))
    Except.ok
      { transactionId := String.mk (trimChars ((g1.1.getD "").data)),
        amount := pa.1.getD 0,
        currency := pc.1.getD "USD",
        timestampUtc := pt.1.getD 0,
        lifecycleStage := lifecycle,
        merchantId := String.mk (trimChars ((g5.1.getD "").data)),
        cardNetwork := String.mk (trimChars ((g6.1.getD "").data)),
        rawSourceRef :=
          { artifactId := artifactId, objectKey := sourceObjectKey,
            sourceType := sourceType, sheetName := sheet,
            sourceRowNumber := r.sourceRowNumber,
            rawFieldsUsed := rawFieldsUsed },
        confidenceScore := conf }

/-- The `for t in tables / for r in rows` accumulation of
`normalize_tabular`: facts appended on success, errors extended on a
dropped row, one row's failure never aborting the batch. -/
def normalizeRows (mappings : List MappingDecision)
    (rtc : List (String × String)) (lifecycle : String)
    (artifactId sourceObjectKey sourceType : String)
    (tables : List TabTable) :
    List TransactionFact × List ValidationErrorItem :=
  tables.foldl
    (fun acc t =>
      t.rows.foldl
        (fun acc2 r =>
          match processRow mappings rtc lifecycle artifactId sourceObjectKey
              sourceType t.sheetName r with
          | Except.ok tx => (acc2.1 ++ [tx], acc2.2)
          | Except.error es => (acc2.1, acc2.2 ++ es))
        acc)
    ([], [])

/-- Embedding of `normalize_tabular` (flow.py lines 37-206). -/
def normalize_tabular (llmConfigured : Bool) (thr : ℚ)
    (artifactId reportId reportType : String) (ingestionTime : ℤ)
    (sourceNetwork sourceObjectKey : String) (tab : TabularJson)
    (oracle : LlmMappingResponse) : NormalizationResult :=
  match tab.tables with
  | [] =>
    { artifactId := artifactId,
      reportFact := reportFactOf reportId reportType ingestionTime
        sourceNetwork 0,
      transactions := [], mapping := none,
      errors := [{ code := "no_tables", message := "No tabular tables found" }] }
  | first :: restTables =>
    match infer_mapping_via_llm llmConfigured thr oracle with
    | Except.error e =>
      { artifactId := artifactId,
        reportFact := reportFactOf reportId reportType ingestionTime
          sourceNetwork 0,
        transactions := [], mapping := none,
        errors := [{ code := "mapping_rejected",
                     message := mappingRejectedMessage e }] }
    | Except.ok mapping0 =>
      let nto := normToOrig first.columnsNormalized first.columnsOriginal
      let rtc := mapping0.mappings.foldl
        (fun d m => dictInsert d m.rawField m.canonicalField) []
      let mapping : LlmMappingResponse :=
        { lifecycle := mapping0.lifecycle,
          mappings := mapping0.mappings.map (updateRationale nto) }
      let sourceType := if tab.kind = "csv" then "csv_row" else "xlsx_row"
      let res := normalizeRows mapping.mappings rtc
        mapping0.lifecycle.lifecycleStage artifactId sourceObjectKey
        sourceType (first :: restTables)
      let txs := dedupe_transactions res.1
      { artifactId := artifactId,
        reportFact := reportFactOf reportId reportType ingestionTime
          sourceNetwork txs.length,
        transactions := txs, mapping := some mapping, errors := res.2 }

theorem updateRationale_confidence (nto : List (String × String))
    (m : MappingDecision) :
    (updateRationale nto m).confidenceScore = m.confidenceScore := by
  unfold updateRationale
  cases dictGet nto m.rawField with
  | none => rfl
  | some orig =>
    show (if orig ≠ "" ∧ orig ≠ m.rawField then _ else m).confidenceScore = _
    split
    · rfl
    · rfl

/-- C5: when the oracle's lifecycle-classification confidence is below
the configured threshold, `normalize_tabular` returns zero transactions,
a `record_count` of 0 and exactly one validation error, with code
`mapping_rejected`; and every individual field mapping whose confidence
is below the threshold is dropped — the mapping a success-path run stores
and extracts rows with holds only mappings at or above the threshold. -/
theorem C5_confidence_gating :
    ∀ (thr : ℚ) (artifactId reportId reportType : String)
      (ingestionTime : ℤ) (sourceNetwork sourceObjectKey : String)
      (tab : TabularJson) (oracle : LlmMappingResponse),
      (tab.tables ≠ [] → oracle.lifecycle.confidenceScore < thr →
        (normalize_tabular true thr artifactId reportId reportType
          ingestionTime sourceNetwork sourceObjectKey tab
          oracle).transactions = [] ∧
        (normalize_tabular true thr artifactId reportId reportType
          ingestionTime sourceNetwork sourceObjectKey tab
          oracle).reportFact.recordCount = 0 ∧
        (normalize_tabular true thr artifactId reportId reportType
          ingestionTime sourceNetwork sourceObjectKey tab oracle).errors =
          [{ code := "mapping_rejected",
             message := "lifecycle_inference_below_threshold" }]) ∧
      (∀ resp, (normalize_tabular true thr artifactId reportId reportType
          ingestionTime sourceNetwork sourceObjectKey tab
          oracle).mapping = some resp →
        ∀ m ∈ resp.mappings, ¬ m.confidenceScore < thr) := by
  intro thr aid rid rty it sn sok tab oracle
  constructor
  · intro hne hconf
    have hinf : infer_mapping_via_llm true thr oracle =
        Except.error .lifecycleBelowThreshold := by
      unfold infer_mapping_via_llm
      rw [if_neg (by simp)]
      show (if oracle.lifecycle.confidenceScore < thr then
        (Except.error MappingRejected.lifecycleBelowThreshold :
          Except MappingRejected LlmMappingResponse) else _) = _
      rw [if_pos hconf]
    cases htab : tab.tables with
    | nil => exact absurd htab hne
    | cons first rest =>
      simp [normalize_tabular, htab, hinf]
      exact ⟨rfl, rfl⟩
  · intro resp hresp m hm hlt
    cases htab : tab.tables with
    | nil =>
      unfold normalize_tabular at hresp
      rw [htab] at hresp
      cases hresp
    | cons first rest =>
      unfold normalize_tabular at hresp
      rw [htab] at hresp
      cases hinf : infer_mapping_via_llm true thr oracle with
      | error e =>
        rw [hinf] at hresp
        cases hresp
      | ok mapping0 =>
        rw [hinf] at hresp
        have hresp2 := Option.some.inj hresp
        have hmm : m ∈ resp.mappings := hm
        rw [← hresp2] at hmm
        obtain ⟨m0, hm0, hm0e⟩ := List.mem_map.mp hmm
        have hkept : mapping0.mappings =
            oracle.mappings.filter fun u => decide (u.confidenceScore ≥ thr) := by
          unfold infer_mapping_via_llm at hinf
          rw [if_neg (by simp)] at hinf
          by_cases hc : oracle.lifecycle.confidenceScore < thr
          · rw [if_pos hc] at hinf
            cases hinf
          · rw [if_neg hc] at hinf
            have := Except.ok.inj hinf
            rw [← this]
        rw [hkept] at hm0
        have hge : thr ≤ m0.confidenceScore := by
          have := (List.mem_filter.mp hm0).2
          simpa using this
        rw [← hm0e, updateRationale_confidence] at hlt
        exact absurd hge (not_le.mpr hlt)

/-- Witness for C5: the rejection clause applied to a one-table input
with lifecycle confidence 0 against threshold 1, plus the drop clause at
the resulting (absent) mapping. -/
theorem C5_confidence_gating_witness :
    (normalize_tabular true 1 "art" "rep" "csv" 0 "net" "raw/k.csv"
      { kind := "csv",
        tables := [{ sheetName := none, columnsNormalized := [],
                     columnsOriginal := [], rows := [] }] }
      { lifecycle := { lifecycleStage := "AUTH", confidenceScore := 0,
                       mappingRationale := "r" },
        mappings := [] }).transactions = [] ∧
    (normalize_tabular true 1 "art" "rep" "csv" 0 "net" "raw/k.csv"
      { kind := "csv",
        tables := [{ sheetName := none, columnsNormalized := [],
                     columnsOriginal := [], rows := [] }] }
      { lifecycle := { lifecycleStage := "AUTH", confidenceScore := 0,
                       mappingRationale := "r" },
        mappings := [] }).errors =
      [{ code := "mapping_rejected",
         message := "lifecycle_inference_below_threshold" }] := by
  have h := (C5_confidence_gating 1 "art" "rep" "csv" 0 "net" "raw/k.csv"
    { kind := "csv",
      tables := [{ sheetName := none, columnsNormalized := [],
                   columnsOriginal := [], rows := [] }] }
    { lifecycle := { lifecycleStage := "AUTH", confidenceScore := 0,
                     mappingRationale := "r" },
      mappings := [] }).1 (by decide) (by decide)
  exact ⟨h.1, h.2.2⟩

/-! ## PDF normalization: `flow.py` `normalize_pdf_elements`

`contracts.LayoutUnderstandingOutput` and friends, with float coordinates
as rationals.  At flow.py line 233 the call
`infer_mapping_via_llm(settings=settings, ...)` references the name
`settings`, which is bound nowhere in the module (no import, no
parameter), so evaluating the call's arguments raises `NameError` inside
the `try` on every execution; the `except Exception` handler then appends
the `lifecycle_inference_failed` error, `mapping` stays `None` and
`lifecycle` keeps its initialisation `LifecycleStage.AUTH`.  The embedding
encodes that always-raising branch directly. -/

/-- `contracts.BoundingBox` (page size and unit fields omitted: the
embedded path reads only the coordinates). -/
structure BoundingBox where
  x1 : ℚ
  y1 : ℚ
  x2 : ℚ
  y2 : ℚ
deriving DecidableEq, Repr

/-- `contracts.FieldPrediction`. -/
structure FieldPrediction where
  fieldType : String
  confidence : ℚ
deriving DecidableEq, Repr

/-- `contracts.LayoutTaggedElement`. -/
structure LayoutTaggedElement where
  elementId : String
  pageNumber : Nat
  text : String
  boundingBox : Option BoundingBox
  predictions : List FieldPrediction
deriving DecidableEq, Repr

/-- `contracts.LayoutUnderstandingOutput`. -/
structure LayoutUnderstandingOutput where
  artifactId : String
  elements : List LayoutTaggedElement
deriving DecidableEq, Repr

/-- `per_page.setdefault(el.page_number, []).append(el)`. -/
def perPage (els : List LayoutTaggedElement) :
    List (Nat × List LayoutTaggedElement) :=
  els.foldl
    (fun d e =>
      match dictGet d e.pageNumber with
      | none => dictInsert d e.pageNumber [e]
      | some l => dictInsert d e.pageNumber (l ++ [e]))
    []

/-- `flow._median`. -/
def pyMedian (xs : List ℚ) : ℚ :=
  if xs = [] then 0
  else
    let ys := xs.mergeSort fun a b => decide (a ≤ b)
    let mid := ys.length / 2
    if ys.length % 2 = 1 then ys.getD mid 0
    else (ys.getD (mid - 1) 0 + ys.getD mid 0) / 2

/-- The y-center of an element's bounding box. -/
def yCenter (bb : BoundingBox) : ℚ := (bb.y1 + bb.y2) / 2

/-- `rows.setdefault(int(yc // bucket), []).append(e)`; float floor
division then `int()` is `Int.floor` on the already-floored value. -/
def rowBuckets (bucket : ℚ) (els : List LayoutTaggedElement) :
    List (ℤ × List LayoutTaggedElement) :=
  els.foldl
    (fun d e =>
      match e.boundingBox with
      | none => d
      | some bb =>
        let key := ⌊yCenter bb / bucket⌋
        match dictGet d key with
        | none => dictInsert d key [e]
        | some l => dictInsert d key (l ++ [e]))
    []

/-- `flow._best_text`: the stripped text of the highest-confidence
prediction of the given field type (strictly above the running best,
starting from −1). -/
def bestText (rowEls : List LayoutTaggedElement) (fieldType : String) :
    Option String :=
  (rowEls.foldl
    (fun acc e =>
      e.predictions.foldl
        (fun acc2 p =>
          if p.fieldType = fieldType ∧ acc2.2 < p.confidence then
            (some (String.mk (trimChars e.text.data)), p.confidence)
          else acc2)
        acc)
    ((none : Option String), (-1 : ℚ))).1

/-- `flow._row_confidence`: mean of the best per-field confidence over
the fields with a positive best, clamped to [0,1]. -/
def rowConfidence (rowEls : List LayoutTaggedElement) : ℚ :=
  let fields := ["transaction_id", "amount", "currency", "date", "status"]
  let acc := fields.foldl
    (fun st f =>
      let best := rowEls.foldl
        (fun b e =>
          e.predictions.foldl
            (fun b2 p =>
              if p.fieldType = f ∧ b2 < p.confidence then p.confidence
              else b2)
            b)
        (0 : ℚ)
      if 0 < best then (st.1 + best, st.2 + 1) else st)
    ((0 : ℚ), (0 : Nat))
  clamp01 (acc.1 / (max 1 acc.2 : ℚ))

/-- The body of one pseudo-row of the PDF path past the transaction-id
check (flow.py lines 282-320); the local Python variables `amt`, `cur`,
`ts`, `status` are pure and inlined. -/
def pdfRowBody (lifecycle artifactId sourceObjectKey sourceNetwork : String)
    (pageNumber : Nat) (rowEls : List LayoutTaggedElement) (s : String) :
    Option (Except (List ValidationErrorItem) TransactionFact) :=
  if s = "" then none
  else if (parse_amount (bestText rowEls "amount") "amount").2.isEmpty &&
      (validate_currency (bestText rowEls "currency") "currency").2.isEmpty &&
      (parse_timestamp_to_utc (bestText rowEls "date")
        "timestamp_utc").2.isEmpty then
    some (Except.ok
      { transactionId := s,
        amount := (parse_amount (bestText rowEls "amount") "amount").1.getD 0,
        currency := (validate_currency (bestText rowEls "currency")
          "currency").1.getD "USD",
        timestampUtc := (parse_timestamp_to_utc (bestText rowEls "date")
          "timestamp_utc").1.getD 0,
        lifecycleStage := lifecycle,
        merchantId := "UNKNOWN",
        cardNetwork := if sourceNetwork = "" then "UNKNOWN"
          else sourceNetwork,
        rawSourceRef :=
          { artifactId := artifactId, objectKey := sourceObjectKey,
            sourceType := "pdf_element", pageNumber := some pageNumber,
            elementId := rowEls.head?.map (·.elementId),
            rawFieldsUsed := ["layout_elements"] },
        confidenceScore := rowConfidence rowEls,
        extensions :=
          match bestText rowEls "status" with
          | some st => if st ≠ "" then [("status", some st)] else []
          | none => [] })
  else
    some (Except.error
      ((parse_amount (bestText rowEls "amount") "amount").2 ++
        (validate_currency (bestText rowEls "currency") "currency").2 ++
        (parse_timestamp_to_utc (bestText rowEls "date") "timestamp_utc").2))

/-- One pseudo-row of the PDF path (flow.py lines 273-320): skipped when
no transaction-id text is found (`if not txid: continue`), dropped with
its validation errors when a financial primitive fails, else a fact with
`merchant_id = "UNKNOWN"` and the document-level network. -/
def processPdfRow (lifecycle artifactId sourceObjectKey
    sourceNetwork : String) (pageNumber : Nat)
    (rowEls : List LayoutTaggedElement) :
    Option (Except (List ValidationErrorItem) TransactionFact) :=
  match bestText rowEls "transaction_id" with
  | none => none
  | some s =>
    pdfRowBody lifecycle artifactId sourceObjectKey sourceNetwork pageNumber
      rowEls s

/-- The inner `for _, row_els in rows.items()` accumulation. -/
def pdfRowStep (lifecycle artifactId sourceObjectKey sourceNetwork : String)
    (pageNumber : Nat)
    (acc : List TransactionFact × List ValidationErrorItem)
    (row : ℤ × List LayoutTaggedElement) :
    List TransactionFact × List ValidationErrorItem :=
  match processPdfRow lifecycle artifactId sourceObjectKey sourceNetwork
      pageNumber row.2 with
  | none => acc
  | some (Except.ok tx) => (acc.1 ++ [tx], acc.2)
  | some (Except.error es) => (acc.1, acc.2 ++ es)

/-- The outer `for page_number, els in per_page.items()` accumulation
(flow.py lines 256-320): bbox/prediction filtering, adaptive bucket
height, y-binning, then the row loop. -/
def pdfPageStep (lifecycle artifactId sourceObjectKey sourceNetwork : String)
    (acc : List TransactionFact × List ValidationErrorItem)
    (page : Nat × List LayoutTaggedElement) :
    List TransactionFact × List ValidationErrorItem :=
  let els := page.2.filter fun e =>
    e.boundingBox.isSome && !e.predictions.isEmpty
  let ys := els.filterMap fun e => e.boundingBox.map yCenter
  if ys = [] then acc
  else
    let heights := els.filterMap fun e =>
      e.boundingBox.map fun bb => bb.y2 - bb.y1
    let bucket : ℚ :=
      max 10 (if heights ≠ [] then pyMedian heights * (3 / 2) else 18)
    (rowBuckets bucket els).foldl
      (pdfRowStep lifecycle artifactId sourceObjectKey sourceNetwork page.1)
      acc

/-- Embedding of `normalize_pdf_elements` (flow.py lines 209-324) with
the always-raising lifecycle-inference call folded in: the
`lifecycle_inference_failed` error is always appended first, `mapping`
stays `None`, and `lifecycle` keeps the initialisation `AUTH`. -/
def normalize_pdf_elements (artifactId reportId reportType : String)
    (ingestionTime : ℤ) (sourceNetwork sourceObjectKey : String)
    (layout : Option LayoutUnderstandingOutput) : NormalizationResult :=
  let errors0 : List ValidationErrorItem :=
    [{ code := "lifecycle_inference_failed",
       message := "name 'settings' is not defined" }]
  let lifecycle := "AUTH"
  match layout with
  | none =>
    { artifactId := artifactId,
      reportFact := reportFactOf reportId reportType ingestionTime
        sourceNetwork 0,
      transactions := [], mapping := none,
      errors := errors0 ++
        [{ code := "layout_missing",
           message := "layout output missing for pdf" }] }
  | some lay =>
    let res := (perPage lay.elements).foldl
      (pdfPageStep lifecycle artifactId sourceObjectKey sourceNetwork)
      ([], [])
    let txs := dedupe_transactions res.1
    { artifactId := artifactId,
      reportFact := reportFactOf reportId reportType ingestionTime
        sourceNetwork txs.length,
      transactions := txs, mapping := none, errors := errors0 ++ res.2 }

theorem mem_of_mem_dedupe {ts : List TransactionFact} {u : TransactionFact}
    (h : u ∈ dedupe_transactions ts) : u ∈ ts := by
  unfold dedupe_transactions at h
  rw [List.mem_mergeSort, mem_dedupe_values_iff] at h
  exact (bestOf_isBest h).1

theorem parse_amount_error_codes (v : Option String) (f : String) :
    ∀ e ∈ (parse_amount v f).2,
      e.code = "amount_missing" ∨ e.code = "amount_invalid" := by
  intro e he
  cases v with
  | none => exact Or.inl (by rw [List.mem_singleton.mp he])
  | some s =>
    simp only [parse_amount] at he
    by_cases h1 : trimChars s.data = []
    · rw [if_pos h1] at he
      exact Or.inl (by rw [List.mem_singleton.mp he])
    · rw [if_neg h1] at he
      cases h2 : pyDecimalParseChars (cleanAmountChars (trimChars s.data)) with
      | none =>
        rw [h2] at he
        exact Or.inr (by rw [List.mem_singleton.mp he])
      | some dv =>
        rw [h2] at he
        cases dv with
        | num q => exact absurd he (List.not_mem_nil e)
        | nan => exact Or.inr (by rw [List.mem_singleton.mp he])
        | infinite => exact Or.inr (by rw [List.mem_singleton.mp he])

theorem validate_currency_error_codes (v : Option String) (f : String) :
    ∀ e ∈ (validate_currency v f).2,
      e.code = "currency_missing" ∨ e.code = "currency_invalid" := by
  intro e he
  cases v with
  | none => exact Or.inl (by rw [List.mem_singleton.mp he])
  | some s =>
    simp only [validate_currency] at he
    by_cases h1 : (String.mk (pyUpper (trimChars s.data))).data = []
    · rw [if_pos h1] at he
      exact Or.inl (by rw [List.mem_singleton.mp he])
    · rw [if_neg h1] at he
      by_cases h2 : String.mk (pyUpper (trimChars s.data)) ∈ ISO4217_CODES
      · rw [if_pos h2] at he
        exact absurd he (List.not_mem_nil e)
      · rw [if_neg h2] at he
        exact Or.inr (by rw [List.mem_singleton.mp he])

theorem parse_timestamp_error_codes (v : Option String) (f : String) :
    ∀ e ∈ (parse_timestamp_to_utc v f).2,
      e.code = "timestamp_missing" ∨ e.code = "timestamp_invalid" := by
  intro e he
  cases v with
  | none => exact Or.inl (by rw [List.mem_singleton.mp he])
  | some s =>
    simp only [parse_timestamp_to_utc] at he
    by_cases h1 : (String.mk (trimChars s.data)).data = []
    · rw [if_pos h1] at he
      exact Or.inl (by rw [List.mem_singleton.mp he])
    · rw [if_neg h1] at he
      cases h2 : dtparserParse (String.mk (trimChars s.data)) with
      | none =>
        rw [h2] at he
        exact Or.inr (by rw [List.mem_singleton.mp he])
      | some dt =>
        rw [h2] at he
        exact absurd he (List.not_mem_nil e)

theorem pdfRowBody_spec (lifecycle artifactId sourceObjectKey
    sourceNetwork : String) (pageNumber : Nat)
    (rowEls : List LayoutTaggedElement) (s : String) :
    (∀ tx, pdfRowBody lifecycle artifactId sourceObjectKey sourceNetwork
        pageNumber rowEls s = some (Except.ok tx) →
      tx.lifecycleStage = lifecycle) ∧
    (∀ es, pdfRowBody lifecycle artifactId sourceObjectKey sourceNetwork
        pageNumber rowEls s = some (Except.error es) →
      ∀ e ∈ es, e.code ≠ "lifecycle_inference_failed") := by
  unfold pdfRowBody
  by_cases hs : s = ""
  · rw [if_pos hs]
    exact ⟨fun tx h => Option.noConfusion h,
      fun es h => Option.noConfusion h⟩
  · rw [if_neg hs]
    by_cases hv : ((parse_amount (bestText rowEls "amount")
        "amount").2.isEmpty &&
        (validate_currency (bestText rowEls "currency")
          "currency").2.isEmpty &&
        (parse_timestamp_to_utc (bestText rowEls "date")
          "timestamp_utc").2.isEmpty) = true
    · rw [if_pos hv]
      constructor
      · intro tx h
        have h3 := Except.ok.inj (Option.some.inj h)
        rw [← h3]
      · intro es h
        exact Except.noConfusion (Option.some.inj h)
    · rw [if_neg hv]
      constructor
      · intro tx h
        exact Except.noConfusion (Option.some.inj h)
      · intro es h
        have h2 := Except.error.inj (Option.some.inj h)
        intro e he
        rw [← h2] at he
        rcases List.mem_append.mp he with he2 | he2
        · rcases List.mem_append.mp he2 with he3 | he3
          · rcases parse_amount_error_codes _ _ e he3 with hc | hc <;>
              rw [hc] <;> decide
          · rcases validate_currency_error_codes _ _ e he3 with hc | hc <;>
              rw [hc] <;> decide
        · rcases parse_timestamp_error_codes _ _ e he2 with hc | hc <;>
            rw [hc] <;> decide

theorem processPdfRow_spec (lifecycle artifactId sourceObjectKey
    sourceNetwork : String) (pageNumber : Nat)
    (rowEls : List LayoutTaggedElement) :
    (∀ tx, processPdfRow lifecycle artifactId sourceObjectKey sourceNetwork
        pageNumber rowEls = some (Except.ok tx) →
      tx.lifecycleStage = lifecycle) ∧
    (∀ es, processPdfRow lifecycle artifactId sourceObjectKey sourceNetwork
        pageNumber rowEls = some (Except.error es) →
      ∀ e ∈ es, e.code ≠ "lifecycle_inference_failed") := by
  unfold processPdfRow
  cases htx : bestText rowEls "transaction_id" with
  | none =>
    exact ⟨fun tx h => Option.noConfusion h,
      fun es h => Option.noConfusion h⟩
  | some s =>
    exact pdfRowBody_spec lifecycle artifactId sourceObjectKey sourceNetwork
      pageNumber rowEls s

theorem pdfRowStep_inv {lifecycle artifactId sourceObjectKey
    sourceNetwork : String} {pageNumber : Nat}
    {acc : List TransactionFact × List ValidationErrorItem}
    (hTx : ∀ tx ∈ acc.1, tx.lifecycleStage = lifecycle)
    (hErr : ∀ e ∈ acc.2, e.code ≠ "lifecycle_inference_failed")
    (row : ℤ × List LayoutTaggedElement) :
    (∀ tx ∈ (pdfRowStep lifecycle artifactId sourceObjectKey sourceNetwork
        pageNumber acc row).1, tx.lifecycleStage = lifecycle) ∧
    (∀ e ∈ (pdfRowStep lifecycle artifactId sourceObjectKey sourceNetwork
        pageNumber acc row).2, e.code ≠ "lifecycle_inference_failed") := by
  unfold pdfRowStep
  cases hp : processPdfRow lifecycle artifactId sourceObjectKey sourceNetwork
      pageNumber row.2 with
  | none => exact ⟨hTx, hErr⟩
  | some r =>
    cases r with
    | ok tx =>
      refine ⟨?_, hErr⟩
      intro u hu
      rcases List.mem_append.mp hu with hu2 | hu2
      · exact hTx u hu2
      · rw [List.mem_singleton.mp hu2]
        exact (processPdfRow_spec lifecycle artifactId sourceObjectKey
          sourceNetwork pageNumber row.2).1 tx hp
    | error es =>
      refine ⟨hTx, ?_⟩
      intro e he
      rcases List.mem_append.mp he with he2 | he2
      · exact hErr e he2
      · exact (processPdfRow_spec lifecycle artifactId sourceObjectKey
          sourceNetwork pageNumber row.2).2 es hp e he2

theorem pdfRows_foldl_inv (lifecycle artifactId sourceObjectKey
    sourceNetwork : String) (pageNumber : Nat) :
    ∀ (rows : List (ℤ × List LayoutTaggedElement))
      (acc : List TransactionFact × List ValidationErrorItem),
      (∀ tx ∈ acc.1, tx.lifecycleStage = lifecycle) →
      (∀ e ∈ acc.2, e.code ≠ "lifecycle_inference_failed") →
      (∀ tx ∈ (rows.foldl (pdfRowStep lifecycle artifactId sourceObjectKey
          sourceNetwork pageNumber) acc).1, tx.lifecycleStage = lifecycle) ∧
      (∀ e ∈ (rows.foldl (pdfRowStep lifecycle artifactId sourceObjectKey
          sourceNetwork pageNumber) acc).2,
        e.code ≠ "lifecycle_inference_failed") := by
  intro rows
  induction rows with
  | nil => intro acc hTx hErr; exact ⟨hTx, hErr⟩
  | cons row rest ih =>
    intro acc hTx hErr
    obtain ⟨hTx2, hErr2⟩ := pdfRowStep_inv hTx hErr row
    exact ih _ hTx2 hErr2

theorem pdfPageStep_inv (lifecycle artifactId sourceObjectKey
    sourceNetwork : String)
    (acc : List TransactionFact × List ValidationErrorItem)
    (page : Nat × List LayoutTaggedElement)
    (hTx : ∀ tx ∈ acc.1, tx.lifecycleStage = lifecycle)
    (hErr : ∀ e ∈ acc.2, e.code ≠ "lifecycle_inference_failed") :
    (∀ tx ∈ (pdfPageStep lifecycle artifactId sourceObjectKey sourceNetwork
        acc page).1, tx.lifecycleStage = lifecycle) ∧
    (∀ e ∈ (pdfPageStep lifecycle artifactId sourceObjectKey sourceNetwork
        acc page).2, e.code ≠ "lifecycle_inference_failed") := by
  unfold pdfPageStep
  dsimp only
  split
  · exact ⟨hTx, hErr⟩
  · exact pdfRows_foldl_inv lifecycle artifactId sourceObjectKey
      sourceNetwork page.1 _ acc hTx hErr

theorem pdfPages_foldl_inv (lifecycle artifactId sourceObjectKey
    sourceNetwork : String) :
    ∀ (pages : List (Nat × List LayoutTaggedElement))
      (acc : List TransactionFact × List ValidationErrorItem),
      (∀ tx ∈ acc.1, tx.lifecycleStage = lifecycle) →
      (∀ e ∈ acc.2, e.code ≠ "lifecycle_inference_failed") →
      (∀ tx ∈ (pages.foldl (pdfPageStep lifecycle artifactId sourceObjectKey
          sourceNetwork) acc).1, tx.lifecycleStage = lifecycle) ∧
      (∀ e ∈ (pages.foldl (pdfPageStep lifecycle artifactId sourceObjectKey
          sourceNetwork) acc).2, e.code ≠ "lifecycle_inference_failed") := by
  intro pages
  induction pages with
  | nil => intro acc hTx hErr; exact ⟨hTx, hErr⟩
  | cons page rest ih =>
    intro acc hTx hErr
    obtain ⟨hTx2, hErr2⟩ := pdfPageStep_inv lifecycle artifactId
      sourceObjectKey sourceNetwork acc page hTx hErr
    exact ih _ hTx2 hErr2

/-- C10: on the PDF path the lifecycle-inference call always raises (the
name `settings` is unbound in flow.py), so `normalize_pdf_elements`
always records exactly one `lifecycle_inference_failed` validation
error, never stores an oracle mapping, and stamps every returned
TransactionFact with the hard-coded default stage `AUTH`. -/
theorem C10_pdf_lifecycle_always_auth :
    ∀ (artifactId reportId reportType : String) (ingestionTime : ℤ)
      (sourceNetwork sourceObjectKey : String)
      (layout : Option LayoutUnderstandingOutput),
      ((normalize_pdf_elements artifactId reportId reportType ingestionTime
          sourceNetwork sourceObjectKey layout).errors.filter
        (fun e => decide (e.code = "lifecycle_inference_failed"))).length
          = 1 ∧
      (∀ tx ∈ (normalize_pdf_elements artifactId reportId reportType
          ingestionTime sourceNetwork sourceObjectKey layout).transactions,
        tx.lifecycleStage = "AUTH") ∧
      (normalize_pdf_elements artifactId reportId reportType ingestionTime
        sourceNetwork sourceObjectKey layout).mapping = none := by
  intro artifactId reportId reportType ingestionTime sourceNetwork
    sourceObjectKey layout
  cases layout with
  | none =>
    refine ⟨rfl, ?_, rfl⟩
    intro tx htx
    exact absurd htx (List.not_mem_nil tx)
  | some lay =>
    obtain ⟨hTx, hErr⟩ := pdfPages_foldl_inv "AUTH" artifactId
      sourceObjectKey sourceNetwork (perPage lay.elements) ([], [])
      (by intro tx h; exact absurd h (List.not_mem_nil tx))
      (by intro e h; exact absurd h (List.not_mem_nil e))
    refine ⟨?_, ?_, rfl⟩
    · show (((
        [{ code := "lifecycle_inference_failed",
           message := "name 'settings' is not defined" }] :
          List ValidationErrorItem) ++
        ((perPage lay.elements).foldl (pdfPageStep "AUTH" artifactId
          sourceObjectKey sourceNetwork) ([], [])).2).filter
        (fun e => decide (e.code = "lifecycle_inference_failed"))).length = 1
      rw [List.filter_append]
      have hnil : (((perPage lay.elements).foldl (pdfPageStep "AUTH"
          artifactId sourceObjectKey sourceNetwork) ([], [])).2).filter
          (fun e => decide (e.code = "lifecycle_inference_failed")) = [] := by
        rw [List.filter_eq_nil_iff]
        intro e he
        simpa using hErr e he
      rw [hnil]
      decide
    · intro tx htx
      exact hTx tx (mem_of_mem_dedupe htx)

/-- Witness for C10: the count and mapping clauses at a concrete missing
layout. -/
theorem C10_pdf_lifecycle_always_auth_witness :
    ((normalize_pdf_elements "art" "rep" "pdf" 0 "net" "raw/k.pdf"
        none).errors.filter
      (fun e => decide (e.code = "lifecycle_inference_failed"))).length = 1 ∧
    (normalize_pdf_elements "art" "rep" "pdf" 0 "net" "raw/k.pdf"
      none).mapping = none :=
  ⟨(C10_pdf_lifecycle_always_auth "art" "rep" "pdf" 0 "net" "raw/k.pdf"
      none).1,
    (C10_pdf_lifecycle_always_auth "art" "rep" "pdf" 0 "net" "raw/k.pdf"
      none).2.2⟩

end Payscope
